import Mathlib

/-!
# Verification of `src/format_tickets.py`

Shallow embedding of the ServiceNow incident formatter.  Python values are
modelled as follows: `str` becomes `String` (a Python string is a sequence of
code points, a Lean `String` a list of `Char`), `datetime` becomes the record
`PyDateTime` of its six fields (the program never produces microseconds or
timezone-aware values on the inputs modelled here), `None`-able strings become
`Option String`, raised `ValueError`s become `Except String`.  The regular
expressions of the source are compiled by hand into character-level decision
procedures; CPython's backtracking is accounted for where it matters (each
numeric field of a `strptime` format is followed by a literal non-digit, so
greedy first-alternative matching is exact).

Modelling notes for the Python standard library (which is not part of the
repository):
* `str.strip` / `\s` use the ASCII whitespace set; `str.lower` is modelled on
  ASCII letters (the data processed by the program is ASCII).
* `str.splitlines` is modelled on the `\n`, `\r\n` and `\r` boundaries; the
  exotic Unicode boundaries (`\x1c`, ` `, ...) are not modelled.
* `datetime.strptime` for the concrete formats used by the source is modelled
  from CPython's `_strptime` regexes (`%Y` is exactly four digits, `%m`/`%d`/
  `%H`/`%M`/`%S` accept one or two digits with their range alternations, a
  whitespace character in the format matches a nonempty whitespace run), and
  the `datetime` constructor's range validation (`1 <= year <= 9999`, real
  day-of-month including leap years, `second <= 59`).
* `datetime.fromisoformat` is modelled on the dashed date form
  `YYYY-MM-DD[<any single separator>HH[:MM[:SS]]]`; fractional seconds,
  timezone offsets and the compact digit forms are outside the model (no
  claim depends on them).
-/

namespace FT

/-- ASCII whitespace, as recognised by Python `str.strip()` and regex `\s`. -/
def isPyWs (c : Char) : Bool :=
  c = ' ' || c = '\t' || c = '\n' || c = '\r' || c = '\x0b' || c = '\x0c'

/-- Drop leading and trailing characters satisfying `bad`. -/
def stripChars (bad : Char → Bool) (cs : List Char) : List Char :=
  ((cs.dropWhile bad).reverse.dropWhile bad).reverse

/-- Python `str.strip()` (no argument: strips whitespace). -/
def pyStrip (s : String) : String := ⟨stripChars isPyWs s.data⟩

/-- Python `str.rstrip()`. -/
def pyRstrip (s : String) : String := ⟨(s.data.reverse.dropWhile isPyWs).reverse⟩

/-- Python `str.lower()`, modelled on ASCII letters. -/
def pyLower (s : String) : String := ⟨s.data.map Char.toLower⟩

/-- Python `str.startswith(p)`. -/
def pyStartsWith (s p : String) : Bool := p.data.isPrefixOf s.data

/-- `needle in haystack` for Python strings (contiguous substring test). -/
def listInfix (needle : List Char) : List Char → Bool
  | [] => needle.isPrefixOf []
  | c :: rest => needle.isPrefixOf (c :: rest) || listInfix needle rest

/-- Python `sub in s`. -/
def pyContains (s sub : String) : Bool := listInfix sub.data s.data

/-- Python `str.splitlines()`, modelled on the `\n`, `\r\n`, `\r` boundaries. -/
def splitlinesAux : List Char → List Char → List String
  | [], acc => if acc.isEmpty then [] else [⟨acc.reverse⟩]
  | '\r' :: '\n' :: rest, acc => ⟨acc.reverse⟩ :: splitlinesAux rest []
  | c :: rest, acc =>
    if c = '\n' || c = '\r' then ⟨acc.reverse⟩ :: splitlinesAux rest []
    else splitlinesAux rest (c :: acc)

/-- Python `str.splitlines()`. -/
def splitlines (s : String) : List String := splitlinesAux s.data []

/-- Python `"\n".join(lines)`. -/
def joinNL : List String → String
  | [] => ""
  | [l] => l
  | l :: ls => l ++ "\n" ++ joinNL ls

/-- Python `str.split(sep)` for a one-character separator, no maxsplit. -/
def splitOnCharAux (sep : Char) : List Char → List Char → List String
  | [], acc => [⟨acc.reverse⟩]
  | c :: rest, acc =>
    if c = sep then ⟨acc.reverse⟩ :: splitOnCharAux sep rest []
    else splitOnCharAux sep rest (c :: acc)

/-- Python `str.split(sep)` for a one-character separator. -/
def splitOnChar (sep : Char) (s : String) : List String := splitOnCharAux sep s.data []

/-- Helper for Python whitespace `str.split()`. -/
def pyWsSplitAux : List Char → List Char → List String
  | [], acc => if acc.isEmpty then [] else [⟨acc.reverse⟩]
  | c :: rest, acc =>
    if isPyWs c then
      if acc.isEmpty then pyWsSplitAux rest []
      else ⟨acc.reverse⟩ :: pyWsSplitAux rest []
    else pyWsSplitAux rest (c :: acc)

/-- Python whitespace `str.split()` (no argument: splits on runs, drops empties). -/
def pyWsSplit (s : String) : List String := pyWsSplitAux s.data []

/-- The value of a decimal digit character. -/
def digitVal (c : Char) : Nat := c.toNat - 48

/-- The decimal digit character for `n < 10` (clamped to `'9'` above). -/
def digitChar : Nat → Char
  | 0 => '0' | 1 => '1' | 2 => '2' | 3 => '3' | 4 => '4'
  | 5 => '5' | 6 => '6' | 7 => '7' | 8 => '8' | _ => '9'

/-- Exactly four decimal digits (CPython `_strptime`'s `%Y`). -/
def parse4Digits : List Char → Option (Nat × List Char)
  | a :: b :: c :: d :: rest =>
    if a.isDigit && b.isDigit && c.isDigit && d.isDigit then
      some (1000 * digitVal a + 100 * digitVal b + 10 * digitVal c + digitVal d, rest)
    else none
  | _ => none

/-- Exactly two decimal digits. -/
def parse2Digits : List Char → Option (Nat × List Char)
  | a :: b :: rest =>
    if a.isDigit && b.isDigit then some (10 * digitVal a + digitVal b, rest) else none
  | _ => none

/-- CPython `_strptime` `%m`: regex `1[0-2]|0[1-9]|[1-9]`. -/
def parseMonthField : List Char → Option (Nat × List Char)
  | c1 :: c2 :: rest =>
    if c1 = '1' && ('0' ≤ c2 && c2 ≤ '2') then some (10 + digitVal c2, rest)
    else if c1 = '0' && ('1' ≤ c2 && c2 ≤ '9') then some (digitVal c2, rest)
    else if '1' ≤ c1 && c1 ≤ '9' then some (digitVal c1, c2 :: rest)
    else none
  | [c1] => if '1' ≤ c1 && c1 ≤ '9' then some (digitVal c1, []) else none
  | [] => none

/-- CPython `_strptime` `%d`: regex `3[01]|[12]\d|0[1-9]|[1-9]`. -/
def parseDayField : List Char → Option (Nat × List Char)
  | c1 :: c2 :: rest =>
    if c1 = '3' && ('0' ≤ c2 && c2 ≤ '1') then some (30 + digitVal c2, rest)
    else if ('1' ≤ c1 && c1 ≤ '2') && c2.isDigit then some (10 * digitVal c1 + digitVal c2, rest)
    else if c1 = '0' && ('1' ≤ c2 && c2 ≤ '9') then some (digitVal c2, rest)
    else if '1' ≤ c1 && c1 ≤ '9' then some (digitVal c1, c2 :: rest)
    else none
  | [c1] => if '1' ≤ c1 && c1 ≤ '9' then some (digitVal c1, []) else none
  | [] => none

/-- CPython `_strptime` `%H`: regex `2[0-3]|[0-1]\d|\d`. -/
def parseHourField : List Char → Option (Nat × List Char)
  | c1 :: c2 :: rest =>
    if c1 = '2' && ('0' ≤ c2 && c2 ≤ '3') then some (20 + digitVal c2, rest)
    else if ('0' ≤ c1 && c1 ≤ '1') && c2.isDigit then some (10 * digitVal c1 + digitVal c2, rest)
    else if c1.isDigit then some (digitVal c1, c2 :: rest)
    else none
  | [c1] => if c1.isDigit then some (digitVal c1, []) else none
  | [] => none

/-- CPython `_strptime` `%M`: regex `[0-5]\d|\d`. -/
def parseMinuteField : List Char → Option (Nat × List Char)
  | c1 :: c2 :: rest =>
    if ('0' ≤ c1 && c1 ≤ '5') && c2.isDigit then some (10 * digitVal c1 + digitVal c2, rest)
    else if c1.isDigit then some (digitVal c1, c2 :: rest)
    else none
  | [c1] => if c1.isDigit then some (digitVal c1, []) else none
  | [] => none

/-- CPython `_strptime` `%S`: regex `6[0-1]|[0-5]\d|\d` (leap seconds allowed). -/
def parseSecondField : List Char → Option (Nat × List Char)
  | c1 :: c2 :: rest =>
    if c1 = '6' && ('0' ≤ c2 && c2 ≤ '1') then some (60 + digitVal c2, rest)
    else if ('0' ≤ c1 && c1 ≤ '5') && c2.isDigit then some (10 * digitVal c1 + digitVal c2, rest)
    else if c1.isDigit then some (digitVal c1, c2 :: rest)
    else none
  | [c1] => if c1.isDigit then some (digitVal c1, []) else none
  | [] => none

/-- Expect a single literal character. -/
def expectChar (c : Char) : List Char → Option (List Char)
  | x :: rest => if x = c then some rest else none
  | [] => none

/-- A nonempty whitespace run (a whitespace character in a `strptime` format
compiles to `\s+`). -/
def expectWsRun : List Char → Option (List Char)
  | x :: rest => if isPyWs x then some (rest.dropWhile isPyWs) else none
  | [] => none

/-- A naive `datetime.datetime` value (the program only produces naive
datetimes on the modelled inputs; microseconds are always zero). -/
structure PyDateTime where
  year : Nat
  month : Nat
  day : Nat
  hour : Nat
  minute : Nat
  second : Nat
deriving DecidableEq, Repr

/-- Gregorian leap year, as in `calendar.isleap` / `datetime`. -/
def isLeapYear (y : Nat) : Bool := y % 4 = 0 && (y % 100 ≠ 0 || y % 400 = 0)

/-- Number of days in a month. -/
def daysInMonth (y m : Nat) : Nat :=
  if m = 2 then (if isLeapYear y then 29 else 28)
  else if m = 4 || m = 6 || m = 9 || m = 11 then 30
  else 31

/-- The `datetime.datetime` constructor's validation. -/
def mkDateTimeChecked (y mo d h mi s : Nat) : Option PyDateTime :=
  if 1 ≤ y && y ≤ 9999 && 1 ≤ mo && mo ≤ 12 && 1 ≤ d && d ≤ daysInMonth y mo
      && h ≤ 23 && mi ≤ 59 && s ≤ 59 then
    some ⟨y, mo, d, h, mi, s⟩
  else none

/-- `datetime.strptime(value, fmt)` for the two primary formats of
`parse_timestamp`: `"%Y-%m-%d %H:%M:%S"` when `sepSpace`, else
`"%Y-%m-%dT%H:%M:%S"`. -/
def strptimePrimary (sepSpace : Bool) (value : String) : Option PyDateTime := do
  let (y, r1) ← parse4Digits value.data
  let r2 ← expectChar '-' r1
  let (mo, r3) ← parseMonthField r2
  let r4 ← expectChar '-' r3
  let (d, r5) ← parseDayField r4
  let r6 ← if sepSpace then expectWsRun r5 else expectChar 'T' r5
  let (h, r7) ← parseHourField r6
  let r8 ← expectChar ':' r7
  let (mi, r9) ← parseMinuteField r8
  let r10 ← expectChar ':' r9
  let (s, r11) ← parseSecondField r10
  if r11.isEmpty then mkDateTimeChecked y mo d h mi s else none

/-- Restricted model of `datetime.fromisoformat`: dashed date, optional time
after any single separator character (see the module docstring). -/
def fromisoformat (value : String) : Option PyDateTime := do
  let (y, r1) ← parse4Digits value.data
  let r2 ← expectChar '-' r1
  let (mo, r3) ← parse2Digits r2
  let r4 ← expectChar '-' r3
  let (d, r5) ← parse2Digits r4
  match r5 with
  | [] => mkDateTimeChecked y mo d 0 0 0
  | _sep :: r6 => do
    let (h, r7) ← parse2Digits r6
    match r7 with
    | [] => mkDateTimeChecked y mo d h 0 0
    | _ => do
      let r8 ← expectChar ':' r7
      let (mi, r9) ← parse2Digits r8
      match r9 with
      | [] => mkDateTimeChecked y mo d h mi 0
      | _ => do
        let r10 ← expectChar ':' r9
        let (s, r11) ← parse2Digits r10
        if r11.isEmpty then mkDateTimeChecked y mo d h mi s else none

/-- `value.replace("Z", "")` — removes every occurrence of `Z`. -/
def removeAllZ (s : String) : String := ⟨s.data.filter (fun c => c ≠ 'Z')⟩

/-- `parse_timestamp` (source lines 63–72). -/
def parse_timestamp (value : String) : Except String PyDateTime :=
  match strptimePrimary true value with
  | some dt => .ok dt
  | none =>
    match strptimePrimary false value with
    | some dt => .ok dt
    | none =>
      match fromisoformat (removeAllZ value) with
      | some dt => .ok dt
      | none => .error ("Unparseable timestamp: " ++ value)

/-- Modelled from the spec (for comparison with the code in claim C3): the
spec says the ISO fallback strips only "a trailing literal `Z`". -/
def stripTrailingZ (s : String) : String :=
  if s.data.getLast? = some 'Z' then ⟨s.data.dropLast⟩ else s

/-- Modelled from the spec (claim C3): a timestamp "matches" when one of the
two primary patterns applies, or general ISO-8601 parsing succeeds after
stripping a trailing literal `Z`. -/
def specMatchesTimestamp (value : String) : Bool :=
  (strptimePrimary true value).isSome || (strptimePrimary false value).isSome
    || (fromisoformat (stripTrailingZ value)).isSome

/-- `date_only` (source lines 55–60). -/
def date_only (value : String) : String :=
  if value.data.contains ' ' then ⟨value.data.takeWhile (fun c => c ≠ ' ')⟩
  else if value.data.contains 'T' then ⟨value.data.takeWhile (fun c => c ≠ 'T')⟩
  else value

/-- Zero-padded two-digit decimal rendering (for stating round-trip facts). -/
def padNat2 (n : Nat) : List Char := [digitChar (n / 10), digitChar (n % 10)]

/-- Zero-padded four-digit decimal rendering. -/
def padNat4 (n : Nat) : List Char :=
  [digitChar (n / 1000), digitChar (n / 100 % 10), digitChar (n / 10 % 10), digitChar (n % 10)]

/-- The canonical rendering of a wall-clock time in one of the two primary
formats (`sep = ' '` or `sep = 'T'`). -/
def primaryTimestampString (sep : Char) (y mo d h mi s : Nat) : String :=
  ⟨padNat4 y ++ '-' :: padNat2 mo ++ '-' :: padNat2 d ++
    sep :: padNat2 h ++ ':' :: padNat2 mi ++ ':' :: padNat2 s⟩

/-! ## The text cleaner (`clean_message_text`, source lines 89–273) -/

/-- `re.sub(r"^-+\s*", "", s)` for a string with no leading whitespace. -/
def stripLeadingDashes (cs : List Char) : List Char :=
  match cs with
  | '-' :: _ => (cs.dropWhile (fun c => c = '-')).dropWhile isPyWs
  | _ => cs

/-- `normalize_line_token` (source lines 118–120). -/
def normalize_line_token (line : String) : String :=
  ⟨stripLeadingDashes (pyStrip line).data⟩

/-- `re.sub(r"^>+\s*", "", s)`. -/
def stripQuoteMarker (cs : List Char) : List Char :=
  match cs with
  | '>' :: _ => (cs.dropWhile (fun c => c = '>')).dropWhile isPyWs
  | _ => cs

/-- Anchored `[^,]+[,!:.]?$` (note `[^,]` also matches spaces and `!:.`). -/
def matchNonCommaPlusPunct (ds : List Char) : Bool :=
  (!ds.isEmpty && !ds.contains ',') ||
  (decide (2 ≤ ds.length) && !ds.dropLast.contains ',' &&
    (ds.getLast? = some ',' || ds.getLast? = some '!'
      || ds.getLast? = some ':' || ds.getLast? = some '.'))

/-- Anchored `\s+[^,]+[,!:.]?$`. -/
def matchWsNamePunct : List Char → Bool
  | c :: rest => isPyWs c && matchNonCommaPlusPunct rest
  | [] => false

/-- Anchored `(\s+[^,]+)?[,!:.]?$`. -/
def matchOptNameTail (cs : List Char) : Bool :=
  cs.isEmpty || (cs = [','] || cs = ['!'] || cs = [':'] || cs = ['.'])
    || matchWsNamePunct cs

/-- `is_greeting_line` (source lines 122–131). -/
def isGreetingLine (line : String) : Bool :=
  let ds := (pyLower (pyStrip line)).data
  if ds.isEmpty then false
  else
    (["hi", "hello", "hey"]).any (fun w =>
      w.data.isPrefixOf ds && matchOptNameTail (ds.drop w.length)) ||
    ("dear".data.isPrefixOf ds && matchWsNamePunct (ds.drop 4)) ||
    ("good ".data.isPrefixOf ds &&
      (["morning", "afternoon", "evening"]).any (fun w =>
        w.data.isPrefixOf (ds.drop 5) && matchOptNameTail (ds.drop (5 + w.length))))

/-- The signoff word alternatives of `is_signoff_line`. -/
def signoffWords : List String :=
  ["best", "regards", "cordially", "thanks", "thank you", "kind regards",
   "best regards", "warm regards", "best wishes", "many thanks",
   "sincerely", "cheers"]

/-- `is_signoff_line` (source lines 133–142). -/
def isSignoffLine (line : String) : Bool :=
  let tok := pyLower (normalize_line_token line)
  if tok.data.isEmpty then false
  else signoffWords.any (fun w =>
    tok == w || tok == w ++ "," || tok == w ++ "." || tok == w ++ "!")

/-- An ASCII letter. -/
def isAsciiLetter (c : Char) : Bool := ('A' ≤ c && c ≤ 'Z') || ('a' ≤ c && c ≤ 'z')

/-- One token of `is_name_line`: `[A-Za-z][A-Za-z.'-]*`. -/
def isNameWord (w : String) : Bool :=
  match w.data with
  | [] => false
  | c :: rest =>
    isAsciiLetter c &&
      rest.all (fun d => isAsciiLetter d || d = '.' || d = '\'' || d = '-')

/-- `is_name_line` (source lines 144–149): one to four name tokens. -/
def isNameLine (line : String) : Bool :=
  let tok := normalize_line_token line
  if tok.data.isEmpty then false
  else
    let words := pyWsSplit tok
    decide (1 ≤ words.length) && decide (words.length ≤ 4) && words.all isNameWord

/-- `is_footer_line` pattern `^nersc consulting(\s*\|{1,2}\s*user engagement
group\s*\(ueg\))?\.?$`, the part after `nersc consulting`. -/
def matchConsultingTail (cs : List Char) : Bool :=
  cs.isEmpty || cs = ['.'] ||
  (match cs.dropWhile isPyWs with
   | '|' :: r1 =>
     let r2 := if r1.head? = some '|' then r1.tail else r1
     let r3 := r2.dropWhile isPyWs
     "user engagement group".data.isPrefixOf r3 &&
       (let r5 := (r3.drop 21).dropWhile isPyWs
        "(ueg)".data.isPrefixOf r5 &&
          (let r6 := r5.drop 5
           r6.isEmpty || r6 = ['.']))
   | _ => false)

/-- `is_footer_line` (source lines 151–169). -/
def isFooterLine (line : String) : Bool :=
  let stripped := pyStrip line
  if stripped.data.isEmpty then false
  else
    let content := pyStrip ⟨stripQuoteMarker stripped.data⟩
    let c := (pyLower content).data
    (c = "nersc account and allocation support".data
      || c = "nersc account and allocation support.".data) ||
    (c = "nersc account & allocations support".data
      || c = "nersc account & allocations support.".data) ||
    ("nersc consulting".data.isPrefixOf c && matchConsultingTail (c.drop 16)) ||
    ("nersc account support".data.isPrefixOf c &&
      (let r := c.drop 21
       let r2 := if r.head? = some ':' then r.tail else r
       r2.all isPyWs)) ||
    ("nersc account support:".data.isPrefixOf c &&
      (let r := (c.drop 22).dropWhile isPyWs
       "accounts@nersc.gov".data.isPrefixOf r &&
         (let r2 := r.drop 18
          r2.isEmpty || r2 = ['.']))) ||
    (c = "accounts@nersc.gov".data || c = "accounts@nersc.gov.".data)

/-- First index at which `needle` occurs in the list (Python `str.find`). -/
def findSubstrIdx (needle : List Char) : List Char → Option Nat
  | [] => if needle.isEmpty then some 0 else none
  | c :: rest =>
    if needle.isPrefixOf (c :: rest) then some 0
    else match findSubstrIdx needle rest with
      | some i => some (i + 1)
      | none => none

/-- Python `s.split(sep, 1)[0]` — the part before the first occurrence of
`sep` (the whole string when absent). -/
def splitFirstBefore (sep : String) (s : String) : String :=
  match findSubstrIdx sep.data s.data with
  | some i => ⟨s.data.take i⟩
  | none => s

/-- `is_author_name_line` (source lines 171–189). -/
def isAuthorNameLine (author : Option String) (line : String) : Bool :=
  match author with
  | none => false
  | some a =>
    let tok := normalize_line_token line
    if tok.data.isEmpty then false
    else
      let content := normalize_line_token ⟨stripChars isPyWs (stripQuoteMarker tok.data)⟩
      let nameBase := pyStrip (splitFirstBefore " (" a)
      if nameBase.data.isEmpty then false
      else
        match pyWsSplit nameBase with
        | [] => false
        | firstName :: restParts =>
          let baseMatches := [pyLower nameBase, pyLower firstName]
          let extra :=
            if restParts.isEmpty then []
            else
              match (restParts.getLastD firstName).data with
              | lc :: _ =>
                [pyLower (firstName ++ " " ++ ⟨[lc]⟩),
                 pyLower (firstName ++ " " ++ ⟨[lc]⟩ ++ ".")]
              | [] => []
          (baseMatches ++ extra).contains (pyLower content)

/-- Month-name alternation of `strptime`'s `%b` (C locale, lowercased). -/
def monthAbbrs : List (String × Nat) :=
  [("jan", 1), ("feb", 2), ("mar", 3), ("apr", 4), ("may", 5), ("jun", 6),
   ("jul", 7), ("aug", 8), ("sep", 9), ("oct", 10), ("nov", 11), ("dec", 12)]

/-- Month-name alternation of `strptime`'s `%B` (C locale, lowercased). -/
def monthFulls : List (String × Nat) :=
  [("january", 1), ("february", 2), ("march", 3), ("april", 4), ("may", 5),
   ("june", 6), ("july", 7), ("august", 8), ("september", 9), ("october", 10),
   ("november", 11), ("december", 12)]

/-- Match one month name of the alternation (`IGNORECASE`: input lowered). -/
def parseMonthName (names : List (String × Nat)) (cs : List Char) : Option (Nat × List Char) :=
  match names with
  | [] => none
  | (w, n) :: rest =>
    if w.data.isPrefixOf cs then some (n, cs.drop w.length)
    else parseMonthName rest cs

/-- `datetime.strptime(value, "%Y-%m-%d")`. -/
def strptimeDateOnly (value : String) : Option PyDateTime := do
  let (y, r1) ← parse4Digits value.data
  let r2 ← expectChar '-' r1
  let (mo, r3) ← parseMonthField r2
  let r4 ← expectChar '-' r3
  let (d, r5) ← parseDayField r4
  if r5.isEmpty then mkDateTimeChecked y mo d 0 0 0 else none

/-- `datetime.strptime` for `"%b %d, %Y"` / `"%B %d, %Y"` and their
`", %H:%M"` extensions. -/
def strptimeMonthName (names : List (String × Nat)) (withTime : Bool)
    (value : String) : Option PyDateTime := do
  let ds := (pyLower value).data
  let (mo, r1) ← parseMonthName names ds
  let r2 ← expectWsRun r1
  let (d, r3) ← parseDayField r2
  let r4 ← expectChar ',' r3
  let r5 ← expectWsRun r4
  let (y, r6) ← parse4Digits r5
  if withTime then do
    let r7 ← expectChar ',' r6
    let r8 ← expectWsRun r7
    let (h, r9) ← parseHourField r8
    let r10 ← expectChar ':' r9
    let (mi, r11) ← parseMinuteField r10
    if r11.isEmpty then mkDateTimeChecked y mo d h mi 0 else none
  else if r6.isEmpty then mkDateTimeChecked y mo d 0 0 0 else none

/-- Python `" ".join(parts)`. -/
def joinSpace : List String → String
  | [] => ""
  | [x] => x
  | x :: xs => x ++ " " ++ joinSpace xs

/-- `is_trailing_date_line` (source lines 89–111). -/
def is_trailing_date_line (line : String) : Bool :=
  let stripped := pyStrip line
  if stripped.data.isEmpty || decide (40 < stripped.data.length) then false
  else
    let parts := pyWsSplit stripped
    let stripped2 :=
      if (["PDT", "PST", "UTC", "GMT"]).contains (parts.getLastD "") && !parts.isEmpty
      then joinSpace parts.dropLast
      else stripped
    (strptimeDateOnly stripped2).isSome
      || (strptimePrimary true stripped2).isSome
      || (strptimeMonthName monthAbbrs false stripped2).isSome
      || (strptimeMonthName monthAbbrs true stripped2).isSome
      || (strptimeMonthName monthFulls false stripped2).isSome
      || (strptimeMonthName monthFulls true stripped2).isSome

/-- A line is blank when `line.strip() == ""`. -/
def isBlankLine (l : String) : Bool := (pyStrip l).data.isEmpty

/-- The leading-metadata test of `strip_leading_metadata` (source 202–214). -/
def isMetaLine (l : String) : Bool :=
  let v := pyLower (pyStrip l)
  pyStartsWith v "reply from:" || pyStartsWith v "created by:"
    || pyStartsWith v "created by reply" || pyStartsWith v "updated by reply"

/-- Stage 1, `strip_leading_metadata` (source lines 192–217): repeatedly
delete the first non-blank line while it is metadata (blank lines before it
are kept in place). -/
def stripLeadingMetadata : List String → List String
  | [] => []
  | l :: ls =>
    if isBlankLine l then l :: stripLeadingMetadata ls
    else if isMetaLine l then stripLeadingMetadata ls
    else l :: ls

/-- Stage 2 (source lines 219–225): delete the first non-blank line when it
is a greeting. -/
def stripGreeting : List String → List String
  | [] => []
  | l :: ls =>
    if isBlankLine l then l :: stripGreeting ls
    else if isGreetingLine l then ls
    else l :: ls

/-- The `on ... at ...` quoted-header test of stage 3 (source line 237). -/
def isOnAtLine (l : String) : Bool :=
  let tail := pyLower (pyStrip l)
  pyStartsWith tail "on " && pyContains tail " at "

/-- Stage 3 deletes the last non-blank line when this holds (source 227–238). -/
def trailingDropCheck (l : String) : Bool :=
  is_trailing_date_line (pyStrip l) || isOnAtLine l

/-- Stage 3 on the reversed line list. -/
def dropTrailingDateAux : List String → List String
  | [] => []
  | l :: ls =>
    if isBlankLine l then l :: dropTrailingDateAux ls
    else if trailingDropCheck l then ls
    else l :: ls

/-- Stage 3 (source lines 227–238). -/
def dropTrailingDate (ls : List String) : List String :=
  (dropTrailingDateAux ls.reverse).reverse

/-- In stage 5's two-line form: skip blanks upward, and when the first
non-blank line is a signoff, drop everything up to and including it. -/
def dropThroughSignoff : List String → Option (List String)
  | [] => none
  | l :: ls =>
    if isBlankLine l then dropThroughSignoff ls
    else if isSignoffLine l then some ls
    else none

/-- Stage 5 on the reversed line list. -/
def dropSignoffAux : List String → List String
  | [] => []
  | l :: ls =>
    if isBlankLine l then l :: dropSignoffAux ls
    else if isSignoffLine l then ls
    else if isNameLine l then
      match dropThroughSignoff ls with
      | some rest => rest
      | none => l :: ls
    else l :: ls

/-- Stage 5 (source lines 242–264): drop a closing signoff line, or a
signoff line followed (as last non-blank line) by a bare name line. -/
def dropSignoff (ls : List String) : List String :=
  (dropSignoffAux ls.reverse).reverse

/-- Stage 7 (source lines 268–271): trim leading/trailing blank lines. -/
def trimBlankEdges (ls : List String) : List String :=
  ((ls.dropWhile isBlankLine).reverse.dropWhile isBlankLine).reverse

/-- The seven stages of `clean_message_text` on the split line list. -/
def cleanLines (author : Option String) (lines : List String) : List String :=
  trimBlankEdges (List.filter (fun l => !isAuthorNameLine author l)
    (dropSignoff (List.filter (fun l => !isFooterLine l)
      (dropTrailingDate (stripGreeting (stripLeadingMetadata lines))))))

/-- `clean_message_text` (source lines 114–273). -/
def clean_message_text (text : String) (author : Option String) : String :=
  joinNL (cleanLines author (splitlines text))

/-- First non-blank line of a line list. -/
def firstNonBlank (ls : List String) : Option String :=
  ls.find? (fun l => !isBlankLine l)

/-- Last non-blank line of a line list. -/
def lastNonBlank (ls : List String) : Option String :=
  ls.reverse.find? (fun l => !isBlankLine l)

/-- The non-blank line preceding the last non-blank line. -/
def prevNonBlankBeforeLast (ls : List String) : Option String :=
  match ls.reverse.dropWhile isBlankLine with
  | [] => none
  | _ :: before => before.find? (fun l => !isBlankLine l)

/-- No stage of the cleaner would still fire on this line list: the first
non-blank line is neither metadata nor a greeting, and the last non-blank
line is not a trailing date / `on ... at ...` header, not a signoff, and not
a bare name right after a signoff. -/
def noResidualBoilerplate (ls : List String) : Bool :=
  (match firstNonBlank ls with
   | some l => !isMetaLine l && !isGreetingLine l
   | none => true) &&
  (match lastNonBlank ls with
   | some l =>
     !trailingDropCheck l && !isSignoffLine l &&
       !(isNameLine l &&
         (match prevNonBlankBeforeLast ls with
          | some p => isSignoffLine p
          | none => false))
   | none => true)

/-! ## Skip predicates, authors, filenames -/

/-- `is_iris_pi_request` (source lines 276–279). -/
def is_iris_pi_request : Option String → Bool
  | none => false
  | some s =>
    if s = "" then false
    else pyLower (pyStrip s) == "ticket from iris: new pi account request"

/-- `is_storage_quota_increase` (source lines 282–287). -/
def is_storage_quota_increase : Option String → Bool
  | none => false
  | some s =>
    if s = "" then false
    else pyStartsWith (pyLower (pyStrip s)) "storage quota increase request:"

/-- `normalize_author` (source lines 290–295). -/
def normalize_author (name : String) (internal : Bool) : String :=
  if internal then
    match findSubstrIdx " (staff work notes".data (pyLower name).data with
    | some i => pyRstrip ⟨name.data.take i⟩
    | none => name
  else name

/-- The character class `[A-Za-z0-9._ -]` of `sanitize_filename`. -/
def goodFilenameChar (c : Char) : Bool :=
  isAsciiLetter c || c.isDigit || c = '.' || c = '_' || c = ' ' || c = '-'

/-- Python `str.replace(a, b)` for one-character strings. -/
def replaceChar (a b : Char) (s : String) : String :=
  ⟨s.data.map (fun c => if c = a then b else c)⟩

/-- `re.sub(r"[^A-Za-z0-9._ -]+", "_", s)`: each maximal run of characters
outside the class becomes a single underscore (`prevBad` records whether the
previous character was part of such a run). -/
def collapseBadRuns : List Char → Bool → List Char
  | [], _ => []
  | c :: cs, prevBad =>
    if goodFilenameChar c then c :: collapseBadRuns cs false
    else if prevBad then collapseBadRuns cs true
    else '_' :: collapseBadRuns cs true

/-- `sanitize_filename` (source lines 298–302). -/
def sanitize_filename (name : String) : String :=
  let s1 := replaceChar '\\' '_' (replaceChar '/' '_' name)
  let s2 : String := ⟨collapseBadRuns s1.data false⟩
  let s3 : String := ⟨stripChars (fun c => c = ' ' || c = '.') s2.data⟩
  if s3 = "" then "attachment" else s3

/-- Modelled from the spec (claim C7 comparison): "replace any character
outside `[A-Za-z0-9._ -]` with `_`", read per character (no run collapsing). -/
def sanitizeSpecPerChar (name : String) : String :=
  let s1 := replaceChar '\\' '_' (replaceChar '/' '_' name)
  let s2 : String := ⟨s1.data.map (fun c => if goodFilenameChar c then c else '_')⟩
  let s3 : String := ⟨stripChars (fun c => c = ' ' || c = '.') s2.data⟩
  if s3 = "" then "attachment" else s3

/-- Index of the last occurrence of a character. -/
def lastIdxOf (c : Char) (cs : List Char) : Option Nat :=
  match cs.reverse.findIdx? (fun d => d = c) with
  | some i => some (cs.length - 1 - i)
  | none => none

/-- `os.path.splitext` (posix): split off the extension at the last dot,
unless every character between the last `/` (exclusive) and that dot is
itself a dot. -/
def splitext (p : String) : String × String :=
  let cs := p.data
  match lastIdxOf '.' cs with
  | none => (p, "")
  | some di =>
    let fi := match lastIdxOf '/' cs with | some s => s + 1 | none => 0
    if fi ≤ di && ((cs.drop fi).take (di - fi)).any (fun c => c ≠ '.') then
      (⟨cs.take di⟩, ⟨cs.drop di⟩)
    else (p, "")

/-- Decimal digit expansion with structural fuel (`n < fuel` always holds at
the call sites, so the `0` branch is unreachable). -/
def natToCharsGo : Nat → Nat → List Char
  | 0, _ => []
  | fuel + 1, n =>
    if n < 10 then [digitChar n]
    else natToCharsGo fuel (n / 10) ++ [digitChar (n % 10)]

/-- Decimal digit expansion of a natural number (Python `str(n)`). -/
def natToChars (n : Nat) : List Char := natToCharsGo (n + 1) n

/-- Python `str(n)` for a natural number. -/
def natToString (n : Nat) : String := ⟨natToChars n⟩

/-- The number denoted by a digit sequence (used to invert `natToChars`). -/
def charsVal (ds : List Char) : Nat := ds.foldl (fun a c => 10 * a + digitVal c) 0

/-- The candidate `f"{root}_{counter}{ext}"` of `unique_filename`. -/
def uniqueCandidate (root ext : String) (counter : Nat) : String :=
  root ++ "_" ++ natToString counter ++ ext

/-- The `while True` loop of `unique_filename`, with explicit fuel.  The fuel
`used.length + 2` always suffices (the candidates are pairwise distinct, see
the pigeonhole argument in the theorems below), so the `none` branch is
unreachable. -/
def uniqueFilenameLoop (root ext : String) (used : List String) : Nat → Nat → Option String
  | 0, _ => none
  | fuel + 1, counter =>
    let candidate := uniqueCandidate root ext counter
    if !used.contains candidate && candidate != "ticket.md" then some candidate
    else uniqueFilenameLoop root ext used fuel (counter + 1)

/-- `unique_filename` (source lines 305–316); the Python version also inserts
the result into the mutable `used` set, which callers here do explicitly. -/
def unique_filename (name : String) (used : List String) : String :=
  if !used.contains name && name != "ticket.md" then name
  else
    let re := splitext name
    match uniqueFilenameLoop re.1 re.2 used (used.length + 2) 2 with
    | some c => c
    | none => name

/-! ## Incident records, message extraction, attachments -/

/-- One entry of `customer_facing_comments` / `internal_work_notes`.  Absent
dictionary keys are `none`; `internal` is written by `extract_messages` and
read back with default `False` (`message.get("internal", False)`). -/
structure MessageRec where
  timestamp : Option String := none
  sys_created_on : Option String := none
  created_on : Option String := none
  created_at : Option String := none
  created : Option String := none
  created_by : Option String := none
  text : Option String := none
  internal : Bool := false
deriving DecidableEq, Repr

/-- One entry of the `attachments` list (content/bytes fields are consumed
only by disk I/O, which is outside this model). -/
structure AttachmentRec where
  timestamp : Option String := none
  sys_created_on : Option String := none
  created_on : Option String := none
  created_at : Option String := none
  created : Option String := none
  file_name : Option String := none
  filename : Option String := none
  name : Option String := none
deriving DecidableEq, Repr

/-- An attachment record with its `resolved_name` key set (the Python code
stores it in the mutable dict after `write_attachment`). -/
structure ResolvedAttachment where
  src : AttachmentRec
  resolved_name : String
deriving DecidableEq, Repr

/-- The `discussions` sub-mapping (`data.get("discussions") or {}`). -/
structure Discussions where
  customer_facing_comments : List MessageRec := []
  internal_work_notes : List MessageRec := []
deriving DecidableEq, Repr

/-- The `metadata` sub-mapping. -/
structure Metadata where
  incident_number : Option String := none
deriving DecidableEq, Repr

/-- The `incident_fields` sub-mapping. -/
structure IncidentFields where
  number : Option String := none
  short_description : Option String := none
  state : Option String := none
  opened_at : Option String := none
  sys_created_on : Option String := none
  closed_at : Option String := none
  resolved_at : Option String := none
deriving DecidableEq, Repr

/-- An incident export record. -/
structure IncidentRecord where
  metadata : Metadata := {}
  incident_fields : IncidentFields := {}
  discussions : Discussions := {}
  attachments : List AttachmentRec := []
deriving DecidableEq, Repr

/-- `pick_first_key` (source lines 75–80) over an ordered candidate list:
first present truthy (non-`None`, nonempty) value. -/
def pickFirstValue : List (Option String) → Option String
  | [] => none
  | v :: rest =>
    match v with
    | some s => if s = "" then pickFirstValue rest else some s
    | none => pickFirstValue rest

/-- `require_value` (source lines 83–86). -/
def require_value (value : Option String) (context : String) : Except String String :=
  match value with
  | none => .error ("Missing required value: " ++ context)
  | some s =>
    if s = "" then .error ("Missing required value: " ++ context) else .ok s

/-- Python `a or b` on optional strings (empty string is falsy). -/
def pyOrOpt (a b : Option String) : Option String :=
  match a with
  | some s => if s = "" then b else some s
  | none => b

/-- `resolve_message_timestamp` (source lines 343–347), over
`MESSAGE_TIMESTAMP_KEYS`. -/
def resolve_message_timestamp (m : MessageRec) : Except String String :=
  require_value
    (pickFirstValue [m.timestamp, m.sys_created_on, m.created_on, m.created_at, m.created])
    "message timestamp"

/-- `resolve_attachment_timestamp` (source lines 336–340), over
`ATTACHMENT_TIMESTAMP_KEYS`. -/
def resolve_attachment_timestamp (a : AttachmentRec) : Except String String :=
  require_value
    (pickFirstValue [a.timestamp, a.sys_created_on, a.created_on, a.created_at, a.created])
    "attachment timestamp"

/-- One pass of `extract_messages` over a comments list (source 477–495):
skip `system` authors, require an author, clean the text, set the internal
flag, normalize the author. -/
def extractFromList (internal : Bool) : List MessageRec → Except String (List MessageRec)
  | [] => pure []
  | m :: rest => do
    let keep :=
      match m.created_by with
      | some cb => !(pyLower (pyStrip cb) == "system")
      | none => true
    if keep then do
      let author ← require_value m.created_by "message author"
      let m2 := { m with
        text := some (clean_message_text (m.text.getD "") (some author)),
        internal := internal,
        created_by := some (normalize_author author internal) }
      let rest2 ← extractFromList internal rest
      pure (m2 :: rest2)
    else extractFromList internal rest

/-- The deduplication key: cleaned text and internal flag (source 500–503). -/
def messageDedupKey (m : MessageRec) : String × Bool := (m.text.getD "", m.internal)

/-- Adjacent deduplication after the first kept message (source 497–507):
`last` is the most recently kept message. -/
def dedupAdjacentGo (last : MessageRec) : List MessageRec → List MessageRec
  | [] => []
  | m :: rest =>
    if messageDedupKey m = messageDedupKey last then dedupAdjacentGo last rest
    else m :: dedupAdjacentGo m rest

/-- Adjacent deduplication of the extracted message list (source 497–507). -/
def dedupAdjacent : List MessageRec → List MessageRec
  | [] => []
  | m :: rest => m :: dedupAdjacentGo m rest

/-- `extract_messages` (source lines 473–509). -/
def extract_messages (data : IncidentRecord) : Except String (List MessageRec) := do
  let customer ← extractFromList false data.discussions.customer_facing_comments
  let internalNotes ← extractFromList true data.discussions.internal_work_notes
  pure (dedupAdjacent (customer ++ internalNotes))

/-- The filename-resolution part of `extract_attachments`/`write_attachment`
(source 350–371 and 512–526); byte decoding and disk writes are I/O and are
outside the model. -/
def extractAttachmentsGo (used : List String) : List AttachmentRec → Except String (List ResolvedAttachment)
  | [] => pure []
  | a :: rest => do
    let name ← require_value (pickFirstValue [a.file_name, a.filename, a.name])
      "attachment filename"
    let safe := unique_filename (sanitize_filename name) used
    let others ← extractAttachmentsGo (safe :: used) rest
    pure ({ src := a, resolved_name := safe } :: others)

/-- `extract_attachments` (source lines 512–526), names only. -/
def extract_attachments (data : IncidentRecord) : Except String (List ResolvedAttachment) :=
  extractAttachmentsGo [] data.attachments

/-! ## Timeline building and rendering -/

/-- One pre-merge timeline entry (the dicts built at source 420–446). -/
inductive TimelineItem where
  | message (timestamp : String) (dt : PyDateTime) (author : String)
      (internal : Bool) (text : String) (order : Nat)
  | attachment (timestamp : String) (dt : PyDateTime) (file : String) (order : Nat)
deriving DecidableEq, Repr

/-- `sort_key` (source lines 448–452): `(timestamp_dt, timestamp_raw,
kind_priority, order)` with `kind_priority` 0 for messages, 1 for
attachments. -/
def itemSortKey : TimelineItem → PyDateTime × String × Nat × Nat
  | .message ts dt _ _ _ order => (dt, ts, 0, order)
  | .attachment ts dt _ order => (dt, ts, 1, order)

/-- Lexicographic strict order on code-point lists (Python `str` `<`). -/
def charListLt : List Char → List Char → Bool
  | [], [] => false
  | [], _ :: _ => true
  | _ :: _, [] => false
  | a :: as, b :: bs => a < b || (a = b && charListLt as bs)

/-- Python string `<`. -/
def strLtB (a b : String) : Bool := charListLt a.data b.data

/-- Python `datetime` `<`: lexicographic on the six fields. -/
def dtLtB (a b : PyDateTime) : Bool :=
  a.year < b.year || (a.year = b.year &&
    (a.month < b.month || (a.month = b.month &&
      (a.day < b.day || (a.day = b.day &&
        (a.hour < b.hour || (a.hour = b.hour &&
          (a.minute < b.minute || (a.minute = b.minute &&
            a.second < b.second)))))))))

/-- Python tuple `<=` on the sort key (lexicographic). -/
def keyLe (x y : PyDateTime × String × Nat × Nat) : Bool :=
  dtLtB x.1 y.1 || (x.1 = y.1 &&
    (strLtB x.2.1 y.2.1 || (x.2.1 = y.2.1 &&
      (x.2.2.1 < y.2.2.1 || (x.2.2.1 = y.2.2.1 &&
        x.2.2.2 ≤ y.2.2.2)))))

/-- The sort relation of `timeline.sort(key=sort_key)`. -/
def itemLe (a b : TimelineItem) : Bool := keyLe (itemSortKey a) (itemSortKey b)

/-- A merged timeline entry: a message, or one collapsed attachment group. -/
inductive TimelineEntry where
  | message (timestamp : String) (dt : PyDateTime) (author : String)
      (internal : Bool) (text : String) (order : Nat)
  | attachments (files : List String)
deriving DecidableEq, Repr

/-- Is the entry an attachment group? -/
def TimelineEntry.isAttachmentGroup : TimelineEntry → Bool
  | .attachments _ => true
  | _ => false

/-- No two adjacent entries of the list are both attachment groups. -/
def noAdjacentAttachmentGroups (l : List TimelineEntry) : Prop :=
  l.Chain' (fun a b => ¬(a.isAttachmentGroup = true ∧ b.isAttachmentGroup = true))

/-- One step of the merge loop (source 456–465): attachments accumulate in
the buffer; a message flushes the buffer as one group before itself. -/
def collapseStep : List TimelineEntry × List String → TimelineItem → List TimelineEntry × List String
  | (merged, buf), .attachment _ _ f _ => (merged, buf ++ [f])
  | (merged, buf), .message ts dt a i t o =>
    (merged ++ (if buf.isEmpty then [] else [.attachments buf])
      ++ [.message ts dt a i t o], [])

/-- The merge loop with its final flush (source 456–468). -/
def collapseItems (items : List TimelineItem) : List TimelineEntry :=
  let r := items.foldl collapseStep ([], [])
  r.1 ++ (if r.2.isEmpty then [] else [.attachments r.2])

/-- The message items of `build_timeline` (source 420–433), indexed from
`index`. -/
def buildMessageItems : List MessageRec → Nat → Except String (List TimelineItem)
  | [], _ => pure []
  | m :: rest, index => do
    let ts ← resolve_message_timestamp m
    let dt ← parse_timestamp ts
    let author ← require_value m.created_by "message author"
    let others ← buildMessageItems rest (index + 1)
    pure (.message ts dt author m.internal (m.text.getD "") index :: others)

/-- The attachment items of `build_timeline` (source 435–446). -/
def buildAttachmentItems : List ResolvedAttachment → Nat → Except String (List TimelineItem)
  | [], _ => pure []
  | a :: rest, index => do
    let ts ← resolve_attachment_timestamp a.src
    let dt ← parse_timestamp ts
    let others ← buildAttachmentItems rest (index + 1)
    pure (.attachment ts dt a.resolved_name index :: others)

/-- Insert before the first element the new one compares `le` to (keeps a
later-inserted element after an equal earlier one: stable). -/
def insertSorted {α} (le : α → α → Bool) (x : α) : List α → List α
  | [] => [x]
  | y :: ys => if le x y then x :: y :: ys else y :: insertSorted le x ys

/-- Stable insertion sort. -/
def sortByLe {α} (le : α → α → Bool) : List α → List α
  | [] => []
  | x :: xs => insertSorted le x (sortByLe le xs)

/-- The pre-merge item list of `build_timeline`, in sorted order.  Python's
`list.sort` is a stable sort by a key on which no two items ever agree (the
`order` component is distinct by construction), so every sort that is
correct for the total key order produces the identical list; a stable
insertion sort is used here. -/
def sortedTimelineItems (messages : List MessageRec)
    (attachments : List ResolvedAttachment) : Except String (List TimelineItem) := do
  let msgItems ← buildMessageItems messages 0
  let attItems ← buildAttachmentItems attachments messages.length
  pure (sortByLe itemLe (msgItems ++ attItems))

/-- `build_timeline` (source lines 413–470). -/
def build_timeline (messages : List MessageRec)
    (attachments : List ResolvedAttachment) : Except String (List TimelineEntry) := do
  let items ← sortedTimelineItems messages attachments
  pure (collapseItems items)

/-- A `- Label: value` bullet, omitted for absent/empty values (source
387–392). -/
def optBullet (label : String) (v : Option String) : List String :=
  match v with
  | some s => if s = "" then [] else ["- " ++ label ++ ": " ++ s]
  | none => []

/-- The lines a single timeline entry contributes (source 395–408). -/
def entryToLines : TimelineEntry → List String
  | .message _ _ author internal text _ =>
    let heading := if internal then author ++ " (staff work notes)" else author
    ["## " ++ heading, "", pyRstrip text, ""]
  | .attachments files =>
    ["## Attachments", ""] ++ files.map (fun n => "- `" ++ n ++ "`") ++ [""]

/-- `build_ticket_markdown` (source lines 374–410). -/
def build_ticket_markdown (incident_number : String) (short_description : Option String)
    (status : Option String) (opened : Option String) (closed : Option String)
    (timeline : List TimelineEntry) : String :=
  let title :=
    match short_description with
    | some sd => if sd = "" then incident_number else incident_number ++ " - " ++ sd
    | none => incident_number
  let lines := ["# " ++ title, ""]
    ++ optBullet "Status" status
    ++ optBullet "Opened" opened
    ++ optBullet "Closed" closed
    ++ [""]
    ++ (timeline.map entryToLines).flatten
  pyRstrip (joinNL lines) ++ "\n"

/-! ## The per-incident pipeline -/

/-- The output of one successful `process_ticket_file` run: the directory
components `<year>/<month>/<incident_number>`, the attachment files written,
and the rendered `ticket.md`. -/
structure TicketOutput where
  year : String
  month : String
  incident_number : String
  attachment_names : List String
  markdown : String
deriving DecidableEq, Repr

/-- `process_ticket_file` (source lines 577–637) as a pure function from the
parsed incident record to either an error, a skip (`none`), or the produced
ticket folder content.  File reads/writes and JSON parsing are I/O and are
outside the model. -/
def process_ticket_file (data : IncidentRecord) : Except String (Option TicketOutput) := do
  let short_description := data.incident_fields.short_description
  if is_iris_pi_request short_description || is_storage_quota_increase short_description then
    pure none
  else do
    let messages ← extract_messages data
    if messages.isEmpty then pure none
    else if messages.length == 1 && data.attachments.isEmpty then pure none
    else do
      let incident_number ← require_value
        (pyOrOpt data.metadata.incident_number data.incident_fields.number)
        "incident number"
      let status ← require_value data.incident_fields.state "status"
      let opened_raw ← require_value
        (pyOrOpt data.incident_fields.opened_at data.incident_fields.sys_created_on)
        "opened date"
      let closed_raw := pyOrOpt data.incident_fields.closed_at data.incident_fields.resolved_at
      let opened := date_only opened_raw
      let closed :=
        match closed_raw with
        | some s => if s = "" then none else some (date_only s)
        | none => none
      let parts := splitOnChar '-' opened
      if parts.length < 2 then
        .error ("Opened date is not YYYY-MM-DD: " ++ opened)
      else do
        let resolvedAtts ← extract_attachments data
        let timeline ← build_timeline messages resolvedAtts
        let md := build_ticket_markdown incident_number short_description
          (some status) (some opened) closed timeline
        pure (some {
          year := parts.getD 0 "",
          month := parts.getD 1 "",
          incident_number := incident_number,
          attachment_names := resolvedAtts.map (fun r => r.resolved_name),
          markdown := md })

/-! ## Helper lemmas -/

theorem head?_dropWhile_not {α} (p : α → Bool) (l : List α) :
    ∀ a, (List.dropWhile p l).head? = some a → p a = false := by
  induction l with
  | nil => intro a h; simp at h
  | cons b bs ih =>
    intro a h
    rw [List.dropWhile_cons] at h
    split at h
    · exact ih a h
    · next hb =>
      rw [List.head?_cons, Option.some.injEq] at h
      subst h
      simpa using hb

theorem dropWhile_head_eq_self {α} (p : α → Bool) (l : List α)
    (h : ∀ a, l.head? = some a → p a = false) : List.dropWhile p l = l := by
  cases l with
  | nil => rfl
  | cons b bs => rw [List.dropWhile_cons, if_neg]; simp [h b rfl]

theorem dropWhile_idem {α} (p : α → Bool) (l : List α) :
    List.dropWhile p (List.dropWhile p l) = List.dropWhile p l :=
  dropWhile_head_eq_self p _ (head?_dropWhile_not p l)

theorem getLast?_dropWhile {α} (p : α → Bool) (l : List α)
    (h : List.dropWhile p l ≠ []) :
    (List.dropWhile p l).getLast? = l.getLast? := by
  obtain ⟨t, ht⟩ := List.dropWhile_suffix (l := l) p
  conv_rhs => rw [← ht]
  rw [List.getLast?_append]
  cases hv : (List.dropWhile p l).getLast? with
  | none => exact absurd (List.getLast?_eq_none_iff.mp hv) h
  | some a => rfl

theorem head?_stripChars_not (bad : Char → Bool) (cs : List Char) :
    ∀ a, (stripChars bad cs).head? = some a → bad a = false := by
  intro a ha
  rcases eq_or_ne ((cs.dropWhile bad).reverse.dropWhile bad) [] with h | h
  · simp [stripChars, h] at ha
  · rw [stripChars, List.head?_reverse, getLast?_dropWhile bad _ h,
      List.getLast?_reverse] at ha
    exact head?_dropWhile_not bad _ a ha

theorem stripChars_idem (bad : Char → Bool) (cs : List Char) :
    stripChars bad (stripChars bad cs) = stripChars bad cs := by
  rw [stripChars, dropWhile_head_eq_self bad _ (head?_stripChars_not bad cs)]
  rw [stripChars, List.reverse_reverse, dropWhile_idem]

theorem stripChars_sublist (bad : Char → Bool) (cs : List Char) :
    (stripChars bad cs).Sublist cs := by
  have h2 : ((cs.dropWhile bad).reverse.dropWhile bad).Sublist (cs.dropWhile bad).reverse :=
    List.dropWhile_sublist _
  have h3 := h2.reverse
  rw [List.reverse_reverse] at h3
  exact h3.trans (List.dropWhile_sublist _)

theorem pyStrip_idem (s : String) : pyStrip (pyStrip s) = pyStrip s := by
  simp only [pyStrip]
  exact congrArg String.mk (stripChars_idem isPyWs s.data)

/-! ## Claim C10: the 40-character cap of the trailing-date stage -/

/-- C10 (corrected), counterexample to the claim as stated: the trailing-date
strip stage *does* delete a last line whose stripped length exceeds 40
characters when that line matches the `on ... at ...` quoted-header branch,
which has no length limit. -/
theorem claim10_counterexample :
    40 < (pyStrip "On Tuesday January 5 at 3pm, John Smith wrote:").data.length ∧
    lastNonBlank ["body", "On Tuesday January 5 at 3pm, John Smith wrote:"]
      = some "On Tuesday January 5 at 3pm, John Smith wrote:" ∧
    dropTrailingDate ["body", "On Tuesday January 5 at 3pm, John Smith wrote:"]
      = ["body"] := by
  refine ⟨by decide, by decide, by decide⟩

theorem dropTrailingDateAux_eq_self (ls : List String)
    (h : ∀ l, ls.find? (fun l => !isBlankLine l) = some l → trailingDropCheck l = false) :
    dropTrailingDateAux ls = ls := by
  induction ls with
  | nil => rfl
  | cons l rest ih =>
    by_cases hb : isBlankLine l = true
    · rw [dropTrailingDateAux, if_pos hb]
      refine congrArg (l :: ·) (ih ?_)
      intro x hx
      exact h x (by simp [List.find?_cons, hb, hx])
    · have hc : trailingDropCheck l = false := by
        apply h l
        simp [List.find?_cons, Bool.not_eq_true] at hb ⊢
        simp [hb]
      rw [dropTrailingDateAux, if_neg (by simp [hb]), if_neg (by simp [hc])]

/-- C10 (amended): `is_trailing_date_line` is false whenever the stripped
line exceeds 40 characters, so the trailing-date stage can delete such a
line only through its `on ... at ...` quoted-header branch; when the last
non-blank line additionally is not an `on ... at ...` line, the stage is a
no-op. -/
theorem claim10_length_cap :
    (∀ l : String, 40 < (pyStrip l).data.length → is_trailing_date_line l = false) ∧
    (∀ ls : List String,
      (∀ l, lastNonBlank ls = some l →
        40 < (pyStrip l).data.length ∧ isOnAtLine l = false) →
      dropTrailingDate ls = ls) := by
  have part1 : ∀ l : String, 40 < (pyStrip l).data.length →
      is_trailing_date_line l = false := by
    intro l h
    rw [is_trailing_date_line, if_pos]
    simp only [Bool.or_eq_true, decide_eq_true_eq]
    exact Or.inr h
  refine ⟨part1, ?_⟩
  intro ls h
  rw [dropTrailingDate, dropTrailingDateAux_eq_self, List.reverse_reverse]
  intro l hl
  obtain ⟨h40, hOnAt⟩ := h l hl
  rw [trailingDropCheck, hOnAt, part1 (pyStrip l) (by rwa [pyStrip_idem])]
  rfl

/-- Witness for `claim10_length_cap` at a concrete 52-character line. -/
theorem claim10_length_cap_witness :
    is_trailing_date_line "This line is definitely longer than forty characters" = false ∧
    dropTrailingDate ["This line is definitely longer than forty characters"]
      = ["This line is definitely longer than forty characters"] := by
  constructor
  · exact claim10_length_cap.1 _ (by decide)
  · apply claim10_length_cap.2
    intro l hl
    rw [show lastNonBlank ["This line is definitely longer than forty characters"]
      = some "This line is definitely longer than forty characters" from rfl,
      Option.some.injEq] at hl
    subst hl
    exact ⟨by decide, by decide⟩

/-! ## Claim C7: filename sanitization -/

/-- C7 (corrected), counterexample to the claim as stated: the code replaces
each maximal *run* of bad characters with a single underscore (regex
`[^A-Za-z0-9._ -]+`), not each bad character individually as the spec's
wording says. -/
theorem claim7_counterexample :
    sanitize_filename "a!!b" = "a_b" ∧ sanitizeSpecPerChar "a!!b" = "a__b" ∧
    sanitize_filename "a!!b" ≠ sanitizeSpecPerChar "a!!b" := by
  refine ⟨rfl, rfl, by decide⟩

theorem collapseBadRuns_chars (cs : List Char) (b : Bool) :
    ∀ c ∈ collapseBadRuns cs b, goodFilenameChar c = true := by
  induction cs generalizing b with
  | nil => intro c hc; simp [collapseBadRuns] at hc
  | cons d ds ih =>
    intro c hc
    rw [collapseBadRuns] at hc
    by_cases hgood : goodFilenameChar d = true
    · rw [if_pos hgood] at hc
      rcases List.mem_cons.mp hc with h | h
      · subst h; exact hgood
      · exact ih false c h
    · rw [if_neg hgood] at hc
      by_cases hb : b = true
      · subst hb; simp only [if_pos rfl] at hc; exact ih true c hc
      · rw [Bool.not_eq_true] at hb
        subst hb
        simp only [Bool.false_eq_true, if_neg not_false] at hc
        rcases List.mem_cons.mp hc with h | h
        · subst h; decide
        · exact ih true c h

theorem sanitize_filename_chars (name : String) :
    ∀ c ∈ (sanitize_filename name).data, goodFilenameChar c = true := by
  intro c hc
  rw [sanitize_filename] at hc
  split at hc
  · have hall : ∀ x ∈ ("attachment" : String).data, goodFilenameChar x = true := by decide
    exact hall c hc
  · exact collapseBadRuns_chars _ false c
      ((stripChars_sublist _ _).subset hc)

/-- C7 (amended): every character of the sanitized name lies in
`[A-Za-z0-9._ -]` — in particular the result contains no `/` and no `\` and
therefore no path separator; the result is never empty; it never starts with
a space or a dot (so no `..` traversal segment can lead the name); each
maximal run of characters outside the class collapses to a single `_`; and
`"../../etc/passwd"` sanitizes to `"_.._etc_passwd"`. -/
theorem claim7_sanitize_safe :
    (∀ (name : String), ∀ c ∈ (sanitize_filename name).data,
      goodFilenameChar c = true ∧ c ≠ '/' ∧ c ≠ '\\') ∧
    (∀ name : String, sanitize_filename name ≠ "") ∧
    (∀ (name : String) (c : Char), (sanitize_filename name).data.head? = some c →
      c ≠ ' ' ∧ c ≠ '.') ∧
    sanitize_filename "../../etc/passwd" = "_.._etc_passwd" := by
  refine ⟨?_, ?_, ?_, rfl⟩
  · intro name c hc
    have hg := sanitize_filename_chars name c hc
    refine ⟨hg, ?_, ?_⟩ <;> rintro rfl <;> simp [goodFilenameChar, isAsciiLetter] at hg
  · intro name
    rw [sanitize_filename]
    split
    · decide
    · next hne =>
      intro hcontra
      exact hne hcontra
  · intro name c hc
    rw [sanitize_filename] at hc
    split at hc
    · rw [show ("attachment" : String).data.head? = some 'a' from rfl,
        Option.some.injEq] at hc
      subst hc
      exact ⟨by decide, by decide⟩
    · have := head?_stripChars_not (fun c => c = ' ' || c = '.') _ c hc
      simp only [Bool.or_eq_false_iff, decide_eq_false_iff_not] at this
      exact this

/-- Witness for `claim7_sanitize_safe` at concrete inputs. -/
theorem claim7_sanitize_safe_witness :
    (goodFilenameChar 'x' = true ∧ 'x' ≠ '/' ∧ 'x' ≠ '\\') ∧
    sanitize_filename "x/y" ≠ "" ∧
    ('x' ≠ ' ' ∧ 'x' ≠ '.') := by
  refine ⟨claim7_sanitize_safe.1 "x/y" 'x' (by decide),
    claim7_sanitize_safe.2.1 "x/y",
    claim7_sanitize_safe.2.2.1 "x/y" 'x' (by decide)⟩

/-! ## Claim C6: unique attachment filenames -/

theorem ebind_ok {ε α β} (v : α) (f : α → Except ε β) :
    (Except.ok v >>= f) = f v := rfl

theorem ebind_err {ε α β} (e : ε) (f : α → Except ε β) :
    ((Except.error e : Except ε α) >>= f) = Except.error e := rfl

theorem epure {ε α} (v : α) : (pure v : Except ε α) = Except.ok v := rfl

theorem contains_eq_false_iff {α} [BEq α] [LawfulBEq α] (l : List α) (a : α) :
    l.contains a = false ↔ a ∉ l := by
  rw [← Bool.not_eq_true, List.contains]
  exact not_congr List.elem_iff

theorem charsVal_append_digit (xs : List Char) (c : Char) :
    charsVal (xs ++ [c]) = 10 * charsVal xs + digitVal c := by
  simp [charsVal, List.foldl_append]

theorem digitVal_digitChar (k : Nat) (h : k < 10) : digitVal (digitChar k) = k := by
  interval_cases k <;> rfl

theorem charsVal_natToCharsGo :
    ∀ (fuel n : Nat), n < fuel → charsVal (natToCharsGo fuel n) = n := by
  intro fuel
  induction fuel with
  | zero => intro n h; omega
  | succ f ih =>
    intro n h
    rw [natToCharsGo]
    split
    · next hlt =>
      have h1 : charsVal [digitChar n] = digitVal (digitChar n) := by
        simp [charsVal]
      rw [h1, digitVal_digitChar n hlt]
    · next hge =>
      have hdiv : n / 10 < n := Nat.div_lt_self (by omega) (by omega)
      rw [charsVal_append_digit, ih (n / 10) (by omega),
        digitVal_digitChar (n % 10) (Nat.mod_lt _ (by omega))]
      omega

theorem charsVal_natToChars (n : Nat) : charsVal (natToChars n) = n :=
  charsVal_natToCharsGo (n + 1) n (by omega)

theorem natToChars_inj : Function.Injective natToChars := by
  intro a b h
  have ha := charsVal_natToChars a
  rw [h, charsVal_natToChars] at ha
  omega

theorem uniqueCandidate_inj (root ext : String) :
    Function.Injective (uniqueCandidate root ext) := by
  intro i j h
  have hd := congrArg String.data h
  simp only [uniqueCandidate, String.data_append] at hd
  have h1 := List.append_cancel_right hd
  have h2 := List.append_cancel_left h1
  have h3 : natToChars i = natToChars j := h2
  exact natToChars_inj h3

theorem exists_free_candidate (root ext : String) (blocked : List String) (counter : Nat) :
    ∃ k, k ≤ blocked.length ∧ uniqueCandidate root ext (counter + k) ∉ blocked := by
  by_contra hcon
  push_neg at hcon
  have hnodup : ((List.range (blocked.length + 1)).map
      (fun k => uniqueCandidate root ext (counter + k))).Nodup := by
    refine List.Nodup.map ?_ (List.nodup_range _)
    intro a b hab
    have := uniqueCandidate_inj root ext hab
    omega
  have hsub : ((List.range (blocked.length + 1)).map
      (fun k => uniqueCandidate root ext (counter + k))).toFinset ⊆ blocked.toFinset := by
    intro x hx
    rw [List.mem_toFinset] at hx ⊢
    obtain ⟨k, hk, rfl⟩ := List.mem_map.mp hx
    exact hcon k (by rw [List.mem_range] at hk; omega)
  have h1 := Finset.card_le_card hsub
  rw [List.toFinset_card_of_nodup hnodup, List.length_map, List.length_range] at h1
  have h2 := List.toFinset_card_le blocked
  omega

theorem uniqueFilenameLoop_spec (root ext : String) (used : List String) :
    ∀ (fuel counter : Nat),
      (∃ k, k < fuel ∧ uniqueCandidate root ext (counter + k) ∉ used ∧
        uniqueCandidate root ext (counter + k) ≠ "ticket.md") →
      ∃ r, uniqueFilenameLoop root ext used fuel counter = some r ∧
        r ∉ used ∧ r ≠ "ticket.md" := by
  intro fuel
  induction fuel with
  | zero =>
    rintro counter ⟨k, hk, _⟩
    omega
  | succ n ih =>
    rintro counter ⟨k, hk, hfree, hmd⟩
    by_cases hc : uniqueCandidate root ext counter ∉ used ∧
        uniqueCandidate root ext counter ≠ "ticket.md"
    · refine ⟨uniqueCandidate root ext counter, ?_, hc.1, hc.2⟩
      simp only [uniqueFilenameLoop]
      rw [if_pos]
      simp only [Bool.and_eq_true, Bool.not_eq_true', bne_iff_ne]
      exact ⟨(contains_eq_false_iff _ _).mpr hc.1, hc.2⟩
    · have hk0 : k ≠ 0 := by
        rintro rfl
        rw [Nat.add_zero] at hfree hmd
        exact hc ⟨hfree, hmd⟩
      have hcc : counter + 1 + (k - 1) = counter + k := by omega
      obtain ⟨r, hr, hrp⟩ := ih (counter + 1)
        ⟨k - 1, by omega, by rw [hcc]; exact hfree, by rw [hcc]; exact hmd⟩
      refine ⟨r, ?_, hrp⟩
      simp only [uniqueFilenameLoop]
      rw [if_neg, hr]
      intro hx
      apply hc
      simp only [Bool.and_eq_true, Bool.not_eq_true', bne_iff_ne] at hx
      exact ⟨(contains_eq_false_iff _ _).mp hx.1, hx.2⟩

theorem unique_filename_eq (name : String) (used : List String) :
    unique_filename name used =
      if !used.contains name && name != "ticket.md" then name
      else
        match uniqueFilenameLoop (splitext name).1 (splitext name).2 used
            (used.length + 2) 2 with
        | some c => c
        | none => name := rfl

theorem unique_filename_spec (name : String) (used : List String) :
    unique_filename name used ∉ used ∧ unique_filename name used ≠ "ticket.md" := by
  rw [unique_filename_eq]
  split
  · next hcond =>
    simp only [Bool.and_eq_true, Bool.not_eq_true', bne_iff_ne] at hcond
    exact ⟨(contains_eq_false_iff _ _).mp hcond.1, hcond.2⟩
  · obtain ⟨k, hk, hfree⟩ := exists_free_candidate (splitext name).1 (splitext name).2
      ("ticket.md" :: used) 2
    rw [List.length_cons] at hk
    have hex : ∃ k2, k2 < used.length + 2 ∧
        uniqueCandidate (splitext name).1 (splitext name).2 (2 + k2) ∉ used ∧
        uniqueCandidate (splitext name).1 (splitext name).2 (2 + k2) ≠ "ticket.md" := by
      refine ⟨k, by omega, ?_, ?_⟩
      · exact fun hm => hfree (List.mem_cons_of_mem _ hm)
      · exact fun he => hfree (he ▸ List.mem_cons_self _ _)
    obtain ⟨r, hr, hrp⟩ := uniqueFilenameLoop_spec _ _ used (used.length + 2) 2 hex
    rw [hr]
    exact hrp

theorem extractAttachmentsGo_spec :
    ∀ (atts : List AttachmentRec) (used : List String) (res : List ResolvedAttachment),
      extractAttachmentsGo used atts = .ok res →
      (res.map (fun r => r.resolved_name)).Nodup ∧
        ∀ r ∈ res, r.resolved_name ∉ used ∧ r.resolved_name ≠ "ticket.md" := by
  intro atts
  induction atts with
  | nil =>
    intro used res h
    rw [extractAttachmentsGo] at h
    rw [epure, Except.ok.injEq] at h
    subst h
    simp
  | cons a rest ih =>
    intro used res h
    simp only [extractAttachmentsGo] at h
    cases hn : require_value (pickFirstValue [a.file_name, a.filename, a.name])
        "attachment filename" with
    | error e =>
      rw [hn, ebind_err] at h
      exact absurd h (by simp)
    | ok name =>
      rw [hn, ebind_ok] at h
      cases hrec : extractAttachmentsGo
          (unique_filename (sanitize_filename name) used :: used) rest with
      | error e =>
        rw [hrec, ebind_err] at h
        exact absurd h (by simp)
      | ok others =>
        rw [hrec, ebind_ok, epure, Except.ok.injEq] at h
        subst h
        obtain ⟨hnodup, hall⟩ := ih _ others hrec
        have hu := unique_filename_spec (sanitize_filename name) used
        constructor
        · rw [List.map_cons, List.nodup_cons]
          refine ⟨?_, hnodup⟩
          intro hmem
          obtain ⟨r, hrm, hre⟩ := List.mem_map.mp hmem
          exact (hall r hrm).1 (hre ▸ List.mem_cons_self _ _)
        · intro r hr
          rcases List.mem_cons.mp hr with rfl | hmem
          · exact hu
          · have hthis := hall r hmem
            exact ⟨fun hm => hthis.1 (List.mem_cons_of_mem _ hm), hthis.2⟩

/-- C6 (confirmed): the filename returned by `unique_filename` is never in
the used set and never `ticket.md`; the filenames resolved for one ticket
are pairwise distinct and none is `ticket.md`; and two attachments both
named `log.txt` resolve to `log.txt` and `log_2.txt`. -/
theorem claim6_attachment_filenames_unique :
    (∀ (name : String) (used : List String),
      unique_filename name used ∉ used ∧ unique_filename name used ≠ "ticket.md") ∧
    (∀ (data : IncidentRecord) (res : List ResolvedAttachment),
      extract_attachments data = .ok res →
      (res.map (fun r => r.resolved_name)).Nodup ∧
        ∀ r ∈ res, r.resolved_name ≠ "ticket.md") ∧
    unique_filename "log.txt" [] = "log.txt" ∧
    unique_filename "log.txt" ["log.txt"] = "log_2.txt" ∧
    extract_attachments
        { attachments := [{ file_name := some "log.txt" }, { file_name := some "log.txt" }] }
      = .ok [⟨{ file_name := some "log.txt" }, "log.txt"⟩,
             ⟨{ file_name := some "log.txt" }, "log_2.txt"⟩] := by
  refine ⟨unique_filename_spec, ?_, rfl, rfl, rfl⟩
  intro data res h
  obtain ⟨hn, hall⟩ := extractAttachmentsGo_spec data.attachments [] res h
  exact ⟨hn, fun r hr => (hall r hr).2⟩

/-- Witness for `claim6_attachment_filenames_unique` at concrete inputs. -/
theorem claim6_attachment_filenames_unique_witness :
    (unique_filename "log.txt" ["ticket.md"] ∉ ["ticket.md"] ∧
      unique_filename "log.txt" ["ticket.md"] ≠ "ticket.md") ∧
    (([⟨{ file_name := some "a" }, "a"⟩] : List ResolvedAttachment).map
        (fun r => r.resolved_name)).Nodup ∧
    (∀ r ∈ ([⟨{ file_name := some "a" }, "a"⟩] : List ResolvedAttachment),
      r.resolved_name ≠ "ticket.md") := by
  refine ⟨claim6_attachment_filenames_unique.1 "log.txt" ["ticket.md"], ?_, ?_⟩
  · exact (claim6_attachment_filenames_unique.2.1
      { attachments := [{ file_name := some "a" }] } _ rfl).1
  · exact (claim6_attachment_filenames_unique.2.1
      { attachments := [{ file_name := some "a" }] } _ rfl).2

/-! ## Claim C4: adjacent-only deduplication -/

theorem dedupAdjacentGo_sublist (last : MessageRec) (l : List MessageRec) :
    (dedupAdjacentGo last l).Sublist l := by
  induction l generalizing last with
  | nil => simp [dedupAdjacentGo]
  | cons m rest ih =>
    rw [dedupAdjacentGo]
    split
    · exact (ih last).trans (List.sublist_cons_self m rest)
    · exact (ih m).cons₂ m

theorem dedupAdjacent_sublist (l : List MessageRec) : (dedupAdjacent l).Sublist l := by
  cases l with
  | nil => simp [dedupAdjacent]
  | cons m rest => exact (dedupAdjacentGo_sublist m rest).cons₂ m

theorem dedupAdjacentGo_eq_self (l : List MessageRec) :
    ∀ last, List.Chain (fun a b => messageDedupKey a ≠ messageDedupKey b) last l →
    dedupAdjacentGo last l = l := by
  induction l with
  | nil => intro last _; rfl
  | cons m rest ih =>
    intro last hch
    rw [List.chain_cons] at hch
    rw [dedupAdjacentGo, if_neg (by exact fun h => hch.1 h.symm)]
    exact congrArg (m :: ·) (ih m hch.2)

/-- C4 (confirmed): deduplication removes nothing except adjacent repeats of
the (cleaned text, internal flag) key — the result is a sublist, an adjacent
pair with equal keys collapses keeping the first, a list whose adjacent keys
all differ is returned unchanged, `extract_messages` is exactly adjacent
deduplication of the extracted-and-cleaned lists, and concretely two
identical adjacent comments collapse while the non-adjacent duplicates in
`a, b, a` all survive. -/
theorem claim4_dedup_adjacent_only :
    (∀ l : List MessageRec, (dedupAdjacent l).Sublist l) ∧
    (∀ (x y : MessageRec) (ys : List MessageRec),
      messageDedupKey x = messageDedupKey y →
      dedupAdjacent (x :: y :: ys) = dedupAdjacent (x :: ys)) ∧
    (∀ l : List MessageRec,
      l.Chain' (fun a b => messageDedupKey a ≠ messageDedupKey b) →
      dedupAdjacent l = l) ∧
    (∀ (data : IncidentRecord) (customer internalNotes : List MessageRec),
      extractFromList false data.discussions.customer_facing_comments = .ok customer →
      extractFromList true data.discussions.internal_work_notes = .ok internalNotes →
      extract_messages data = .ok (dedupAdjacent (customer ++ internalNotes))) ∧
    extract_messages { discussions := { customer_facing_comments :=
        [{ created_by := some "Alice", text := some "dup" },
         { created_by := some "Alice", text := some "dup" }] } }
      = .ok [{ created_by := some "Alice", text := some "dup", internal := false }] ∧
    extract_messages { discussions := { customer_facing_comments :=
        [{ created_by := some "Alice", text := some "a" },
         { created_by := some "Alice", text := some "b" },
         { created_by := some "Alice", text := some "a" }] } }
      = .ok [{ created_by := some "Alice", text := some "a", internal := false },
             { created_by := some "Alice", text := some "b", internal := false },
             { created_by := some "Alice", text := some "a", internal := false }] := by
  refine ⟨dedupAdjacent_sublist, ?_, ?_, ?_, rfl, rfl⟩
  · intro x y ys h
    rw [dedupAdjacent, dedupAdjacent, dedupAdjacentGo, if_pos h.symm]
  · intro l hch
    cases l with
    | nil => rfl
    | cons m rest => exact congrArg (m :: ·) (dedupAdjacentGo_eq_self rest m hch)
  · intro data customer internalNotes h1 h2
    rw [extract_messages, h1, ebind_ok, h2, ebind_ok, epure]

/-- Witness for `claim4_dedup_adjacent_only` at concrete inputs. -/
theorem claim4_dedup_adjacent_only_witness :
    dedupAdjacent [({ text := some "x" } : MessageRec), { text := some "x" }]
      = dedupAdjacent [({ text := some "x" } : MessageRec)] ∧
    dedupAdjacent [({ text := some "x" } : MessageRec), { text := some "y" }]
      = [({ text := some "x" } : MessageRec), { text := some "y" }] ∧
    extract_messages { discussions := { customer_facing_comments :=
        [{ created_by := some "A", text := some "t" }] } }
      = .ok (dedupAdjacent
          ([{ created_by := some "A",
              text := some (clean_message_text "t" (some "A")),
              internal := false }] ++ [])) := by
  refine ⟨claim4_dedup_adjacent_only.2.1 _ _ _ rfl,
    claim4_dedup_adjacent_only.2.2.1 _ (by rw [List.chain'_pair]; decide), ?_⟩
  exact claim4_dedup_adjacent_only.2.2.2.1
    { discussions := { customer_facing_comments :=
        [{ created_by := some "A", text := some "t" }] } } _ _ rfl rfl

/-! ## Claim C5: no two adjacent attachment groups -/

theorem appendGroupMessage_chain (merged : List TimelineEntry)
    (G : List TimelineEntry) (e : TimelineEntry)
    (h1 : noAdjacentAttachmentGroups merged)
    (h2 : ∀ x, merged.getLast? = some x → x.isAttachmentGroup = false)
    (hG : G.length ≤ 1) (he : e.isAttachmentGroup = false) :
    noAdjacentAttachmentGroups (merged ++ G ++ [e]) := by
  rw [noAdjacentAttachmentGroups, List.append_assoc, List.chain'_append]
  refine ⟨h1, ?_, ?_⟩
  · rw [List.chain'_append]
    refine ⟨?_, by simp, ?_⟩
    · match G, hG with
      | [], _ => exact List.chain'_nil
      | [g], _ => exact List.chain'_singleton g
    · intro x hx y hy
      rw [Option.mem_def, List.head?_cons, Option.some.injEq] at hy
      subst hy
      rw [he]
      exact fun hand => Bool.false_ne_true hand.2
  · intro x hx y hy
    rw [Option.mem_def] at hx
    have hxng := h2 x hx
    rw [hxng]
    exact fun hand => Bool.false_ne_true hand.1

theorem collapseStep_preserves (acc : List TimelineEntry × List String)
    (it : TimelineItem)
    (h1 : noAdjacentAttachmentGroups acc.1)
    (h2 : ∀ e, acc.1.getLast? = some e → e.isAttachmentGroup = false) :
    noAdjacentAttachmentGroups (collapseStep acc it).1 ∧
      (∀ e, (collapseStep acc it).1.getLast? = some e →
        e.isAttachmentGroup = false) := by
  obtain ⟨merged, buf⟩ := acc
  cases it with
  | attachment ts dt f order => exact ⟨h1, h2⟩
  | message ts dt a i t o =>
    constructor
    · rw [collapseStep]
      exact appendGroupMessage_chain merged _ _ h1 h2 (by split <;> simp) rfl
    · intro e he
      rw [collapseStep] at he
      rw [List.append_assoc, List.getLast?_append, List.getLast?_append,
        List.getLast?_singleton] at he
      simp only [Option.or] at he
      rw [Option.some.injEq] at he
      subst he
      rfl

theorem collapse_fold_invariant (items : List TimelineItem) :
    ∀ (acc : List TimelineEntry × List String),
      noAdjacentAttachmentGroups acc.1 →
      (∀ e, acc.1.getLast? = some e → e.isAttachmentGroup = false) →
      noAdjacentAttachmentGroups (items.foldl collapseStep acc).1 ∧
      (∀ e, (items.foldl collapseStep acc).1.getLast? = some e →
        e.isAttachmentGroup = false) := by
  induction items with
  | nil => exact fun acc h1 h2 => ⟨h1, h2⟩
  | cons it rest ih =>
    intro acc h1 h2
    rw [List.foldl_cons]
    obtain ⟨h1n, h2n⟩ := collapseStep_preserves acc it h1 h2
    exact ih _ h1n h2n

theorem collapseItems_no_adjacent_groups (items : List TimelineItem) :
    noAdjacentAttachmentGroups (collapseItems items) := by
  obtain ⟨h1, h2⟩ := collapse_fold_invariant items ([], [])
    List.chain'_nil (by intro e he; simp at he)
  rw [collapseItems, noAdjacentAttachmentGroups, List.chain'_append]
  refine ⟨h1, by split <;> simp, ?_⟩
  intro x hx y hy
  rw [Option.mem_def] at hx
  have hxng := h2 x hx
  rw [hxng]
  exact fun hand => Bool.false_ne_true hand.1

/-- C5 (confirmed): a timeline produced by `build_timeline` never contains
two adjacent attachment-group entries; concretely, two attachments with no
message in between collapse into one group. -/
theorem claim5_no_adjacent_attachment_groups :
    (∀ (messages : List MessageRec) (attachments : List ResolvedAttachment)
        (tl : List TimelineEntry),
      build_timeline messages attachments = .ok tl →
      noAdjacentAttachmentGroups tl) ∧
    build_timeline []
        [⟨{ timestamp := some "2024-01-01 10:00:00" }, "a.txt"⟩,
         ⟨{ timestamp := some "2024-01-01 11:00:00" }, "b.txt"⟩]
      = .ok [TimelineEntry.attachments ["a.txt", "b.txt"]] := by
  refine ⟨?_, rfl⟩
  intro messages attachments tl h
  rw [build_timeline] at h
  cases hs : sortedTimelineItems messages attachments with
  | error e =>
    rw [hs, ebind_err] at h
    exact absurd h (by simp)
  | ok items =>
    rw [hs, ebind_ok, epure, Except.ok.injEq] at h
    subst h
    exact collapseItems_no_adjacent_groups items

/-- Witness for `claim5_no_adjacent_attachment_groups` at a concrete
timeline. -/
theorem claim5_no_adjacent_attachment_groups_witness :
    noAdjacentAttachmentGroups [TimelineEntry.attachments ["a.txt", "b.txt"]] := by
  exact claim5_no_adjacent_attachment_groups.1 []
    [⟨{ timestamp := some "2024-01-01 10:00:00" }, "a.txt"⟩,
     ⟨{ timestamp := some "2024-01-01 11:00:00" }, "b.txt"⟩] _
    claim5_no_adjacent_attachment_groups.2

/-! ## Claims C9 and C8: skip policy and required fields -/

theorem if_bool_false {α} {c : Bool} (h : c = false) (t e : α) :
    (if c = true then t else e) = e := by
  rw [h]
  simp

theorem require_value_falsy (v : Option String) (ctx : String)
    (h : v = none ∨ v = some "") :
    require_value v ctx = .error ("Missing required value: " ++ ctx) := by
  rcases h with rfl | rfl <;> simp [require_value]

theorem require_value_truthy (s : String) (ctx : String) (h : s ≠ "") :
    require_value (some s) ctx = .ok s := by
  simp [require_value, h]

/-- C9 (confirmed): `process_ticket_file` silently produces no output when
the short description matches the IRIS/PI phrase or the storage-quota
prefix, when extraction yields no messages, or when it yields exactly one
message and there are no attachments; the concrete one-comment incident is
skipped while its two-comment variant produces an output folder. -/
theorem claim9_skip_policy :
    (∀ data : IncidentRecord,
      is_iris_pi_request data.incident_fields.short_description = true →
      process_ticket_file data = .ok none) ∧
    (∀ data : IncidentRecord,
      is_storage_quota_increase data.incident_fields.short_description = true →
      process_ticket_file data = .ok none) ∧
    (∀ data : IncidentRecord,
      is_iris_pi_request data.incident_fields.short_description = false →
      is_storage_quota_increase data.incident_fields.short_description = false →
      extract_messages data = .ok [] →
      process_ticket_file data = .ok none) ∧
    (∀ (data : IncidentRecord) (m : MessageRec),
      is_iris_pi_request data.incident_fields.short_description = false →
      is_storage_quota_increase data.incident_fields.short_description = false →
      extract_messages data = .ok [m] →
      data.attachments = [] →
      process_ticket_file data = .ok none) ∧
    process_ticket_file { discussions := { customer_facing_comments :=
        [{ timestamp := some "2024-01-02 10:00:00", created_by := some "Alice",
           text := some "Broken." }] } }
      = .ok none ∧
    (∃ out, process_ticket_file {
        metadata := { incident_number := some "INC1" },
        incident_fields := { state := some "Open", opened_at := some "2024-01-02 10:00:00" },
        discussions := { customer_facing_comments :=
          [{ timestamp := some "2024-01-02 10:00:00", created_by := some "Alice",
             text := some "A." },
           { timestamp := some "2024-01-02 11:00:00", created_by := some "Bob",
             text := some "B." }] } }
      = .ok (some out)) := by
  refine ⟨?_, ?_, ?_, ?_, rfl, ⟨_, rfl⟩⟩
  · intro data h
    rw [process_ticket_file, if_pos (by rw [h, Bool.true_or])]
    rfl
  · intro data h
    rw [process_ticket_file, if_pos (by rw [h, Bool.or_true])]
    rfl
  · intro data h1 h2 hmsg
    rw [process_ticket_file, if_bool_false (by rw [h1, h2, Bool.or_self]),
      hmsg, ebind_ok]
    rfl
  · intro data m h1 h2 hmsg hatt
    rw [process_ticket_file, if_bool_false (by rw [h1, h2, Bool.or_self]),
      hmsg, ebind_ok, hatt]
    rfl

/-- Witness for `claim9_skip_policy` at concrete incidents. -/
theorem claim9_skip_policy_witness :
    process_ticket_file { incident_fields :=
        { short_description := some "Ticket from IRIS: New PI Account Request" } }
      = .ok none ∧
    process_ticket_file { incident_fields :=
        { short_description := some "Storage Quota Increase Request: test" } }
      = .ok none ∧
    process_ticket_file { discussions := { customer_facing_comments :=
        [{ created_by := some "System", text := some "x" }] } }
      = .ok none ∧
    process_ticket_file { discussions := { customer_facing_comments :=
        [{ created_by := some "Alice", text := some "x" }] } }
      = .ok none := by
  refine ⟨claim9_skip_policy.1 _ (by decide), claim9_skip_policy.2.1 _ (by decide),
    claim9_skip_policy.2.2.1 _ rfl rfl rfl, ?_⟩
  exact claim9_skip_policy.2.2.2.1 _
    { created_by := some "Alice", text := some (clean_message_text "x" (some "Alice")),
      internal := false }
    rfl rfl rfl rfl

/-- C8 (confirmed): once an incident passes the skip gates, an absent (or
empty) incident number, status, or opened date each abort processing with
the labeled `Missing required value` error, in that order of checks; an
absent closed date is not an error — the incident is fully processed and
the rendered Markdown contains no `- Closed:` bullet (the `Closed` bullet
of the renderer is omitted exactly when the value is absent). -/
theorem claim8_required_fields :
    (∀ (data : IncidentRecord) (msgs : List MessageRec),
      is_iris_pi_request data.incident_fields.short_description = false →
      is_storage_quota_increase data.incident_fields.short_description = false →
      extract_messages data = .ok msgs →
      msgs.isEmpty = false →
      (msgs.length == 1 && data.attachments.isEmpty) = false →
      (pyOrOpt data.metadata.incident_number data.incident_fields.number = none ∨
        pyOrOpt data.metadata.incident_number data.incident_fields.number = some "") →
      process_ticket_file data = .error "Missing required value: incident number") ∧
    (∀ (data : IncidentRecord) (msgs : List MessageRec) (num : String),
      is_iris_pi_request data.incident_fields.short_description = false →
      is_storage_quota_increase data.incident_fields.short_description = false →
      extract_messages data = .ok msgs →
      msgs.isEmpty = false →
      (msgs.length == 1 && data.attachments.isEmpty) = false →
      pyOrOpt data.metadata.incident_number data.incident_fields.number = some num →
      num ≠ "" →
      (data.incident_fields.state = none ∨ data.incident_fields.state = some "") →
      process_ticket_file data = .error "Missing required value: status") ∧
    (∀ (data : IncidentRecord) (msgs : List MessageRec) (num st : String),
      is_iris_pi_request data.incident_fields.short_description = false →
      is_storage_quota_increase data.incident_fields.short_description = false →
      extract_messages data = .ok msgs →
      msgs.isEmpty = false →
      (msgs.length == 1 && data.attachments.isEmpty) = false →
      pyOrOpt data.metadata.incident_number data.incident_fields.number = some num →
      num ≠ "" →
      data.incident_fields.state = some st →
      st ≠ "" →
      (pyOrOpt data.incident_fields.opened_at data.incident_fields.sys_created_on = none ∨
        pyOrOpt data.incident_fields.opened_at data.incident_fields.sys_created_on = some "") →
      process_ticket_file data = .error "Missing required value: opened date") ∧
    optBullet "Closed" none = [] ∧
    process_ticket_file {
        metadata := { incident_number := some "INC1" },
        incident_fields := { state := some "Open", opened_at := some "2024-01-02 10:00:00" },
        discussions := { customer_facing_comments :=
          [{ timestamp := some "2024-01-02 10:00:00", created_by := some "Alice",
             text := some "A." },
           { timestamp := some "2024-01-02 11:00:00", created_by := some "Bob",
             text := some "B." }] } }
      = .ok (some {
          year := "2024", month := "01", incident_number := "INC1",
          attachment_names := [],
          markdown := "# INC1\n\n- Status: Open\n- Opened: 2024-01-02\n\n## Alice\n\nA.\n\n## Bob\n\nB.\n" }) ∧
    pyContains "# INC1\n\n- Status: Open\n- Opened: 2024-01-02\n\n## Alice\n\nA.\n\n## Bob\n\nB.\n"
      "- Closed:" = false := by
  refine ⟨?_, ?_, ?_, rfl, rfl, by decide⟩
  · intro data msgs h1 h2 hmsg hne hgate hnum
    rw [process_ticket_file, if_bool_false (by rw [h1, h2, Bool.or_self]),
      hmsg, ebind_ok, if_bool_false hne, if_bool_false hgate,
      require_value_falsy _ _ hnum, ebind_err]
    rfl
  · intro data msgs num h1 h2 hmsg hne hgate hnum hnumne hstate
    rw [process_ticket_file, if_bool_false (by rw [h1, h2, Bool.or_self]),
      hmsg, ebind_ok, if_bool_false hne, if_bool_false hgate,
      hnum, require_value_truthy _ _ hnumne, ebind_ok,
      require_value_falsy _ _ hstate, ebind_err]
    rfl
  · intro data msgs num st h1 h2 hmsg hne hgate hnum hnumne hst hstne hopen
    rw [process_ticket_file, if_bool_false (by rw [h1, h2, Bool.or_self]),
      hmsg, ebind_ok, if_bool_false hne, if_bool_false hgate,
      hnum, require_value_truthy _ _ hnumne, ebind_ok,
      hst, require_value_truthy _ _ hstne, ebind_ok,
      require_value_falsy _ _ hopen, ebind_err]
    rfl

/-- Witness for `claim8_required_fields` at concrete incidents. -/
theorem claim8_required_fields_witness :
    process_ticket_file { discussions := { customer_facing_comments :=
        [{ timestamp := some "t1", created_by := some "Alice", text := some "A." },
         { timestamp := some "t2", created_by := some "Bob", text := some "B." }] } }
      = .error "Missing required value: incident number" ∧
    process_ticket_file {
        metadata := { incident_number := some "INC1" },
        discussions := { customer_facing_comments :=
          [{ timestamp := some "t1", created_by := some "Alice", text := some "A." },
           { timestamp := some "t2", created_by := some "Bob", text := some "B." }] } }
      = .error "Missing required value: status" ∧
    process_ticket_file {
        metadata := { incident_number := some "INC1" },
        incident_fields := { state := some "Open" },
        discussions := { customer_facing_comments :=
          [{ timestamp := some "t1", created_by := some "Alice", text := some "A." },
           { timestamp := some "t2", created_by := some "Bob", text := some "B." }] } }
      = .error "Missing required value: opened date" := by
  refine ⟨?_, ?_, ?_⟩
  · exact claim8_required_fields.1 _
      [{ timestamp := some "t1", created_by := some "Alice",
         text := some (clean_message_text "A." (some "Alice")), internal := false },
       { timestamp := some "t2", created_by := some "Bob",
         text := some (clean_message_text "B." (some "Bob")), internal := false }]
      rfl rfl rfl rfl rfl (Or.inl rfl)
  · exact claim8_required_fields.2.1 _
      [{ timestamp := some "t1", created_by := some "Alice",
         text := some (clean_message_text "A." (some "Alice")), internal := false },
       { timestamp := some "t2", created_by := some "Bob",
         text := some (clean_message_text "B." (some "Bob")), internal := false }]
      "INC1" rfl rfl rfl rfl rfl rfl (by decide) (Or.inl rfl)
  · exact claim8_required_fields.2.2.1 _
      [{ timestamp := some "t1", created_by := some "Alice",
         text := some (clean_message_text "A." (some "Alice")), internal := false },
       { timestamp := some "t2", created_by := some "Bob",
         text := some (clean_message_text "B." (some "Bob")), internal := false }]
      "INC1" "Open" rfl rfl rfl rfl rfl rfl (by decide) rfl (by decide) (Or.inl rfl)

/-! ## Claim C1: the timeline sort order is a total order -/

theorem charListLt_trans :
    ∀ a b c : List Char, charListLt a b = true → charListLt b c = true →
      charListLt a c = true := by
  intro a
  induction a with
  | nil =>
    intro b c hab hbc
    cases b with
    | nil => simp [charListLt] at hab
    | cons y ys =>
      cases c with
      | nil => simp [charListLt] at hbc
      | cons z zs => simp [charListLt]
  | cons x xs ih =>
    intro b c hab hbc
    cases b with
    | nil => simp [charListLt] at hab
    | cons y ys =>
      cases c with
      | nil => simp [charListLt] at hbc
      | cons z zs =>
        simp only [charListLt, Bool.or_eq_true, Bool.and_eq_true,
          decide_eq_true_eq] at hab hbc ⊢
        rcases hab with h1 | ⟨rfl, h1⟩
        · rcases hbc with h2 | ⟨rfl, h2⟩
          · exact Or.inl (lt_trans h1 h2)
          · exact Or.inl h1
        · rcases hbc with h2 | ⟨rfl, h2⟩
          · exact Or.inl h2
          · exact Or.inr ⟨rfl, ih ys zs h1 h2⟩

theorem charListLt_trichotomy :
    ∀ a b : List Char, charListLt a b = true ∨ a = b ∨ charListLt b a = true := by
  intro a
  induction a with
  | nil =>
    intro b
    cases b with
    | nil => exact Or.inr (Or.inl rfl)
    | cons y ys => exact Or.inl (by simp [charListLt])
  | cons x xs ih =>
    intro b
    cases b with
    | nil => exact Or.inr (Or.inr (by simp [charListLt]))
    | cons y ys =>
      rcases lt_trichotomy x y with h | rfl | h
      · exact Or.inl (by simp [charListLt, h])
      · rcases ih ys with h2 | rfl | h2
        · exact Or.inl (by simp [charListLt, h2])
        · exact Or.inr (Or.inl rfl)
        · exact Or.inr (Or.inr (by simp [charListLt, h2]))
      · exact Or.inr (Or.inr (by simp [charListLt, h]))

theorem charListLt_asymm :
    ∀ a b : List Char, charListLt a b = true → charListLt b a = true → False := by
  intro a
  induction a with
  | nil =>
    intro b h1 h2
    cases b <;> simp [charListLt] at h1 h2
  | cons x xs ih =>
    intro b h1 h2
    cases b with
    | nil => simp [charListLt] at h1
    | cons y ys =>
      simp only [charListLt, Bool.or_eq_true, Bool.and_eq_true,
        decide_eq_true_eq] at h1 h2
      rcases h1 with h1 | ⟨rfl, h1⟩
      · rcases h2 with h2 | ⟨rfl, h2⟩
        · exact lt_asymm h1 h2
        · exact lt_irrefl _ h1
      · rcases h2 with h2 | ⟨_, h2⟩
        · exact lt_irrefl _ h2
        · exact ih ys h1 h2

theorem strLtB_trans (a b c : String) (h1 : strLtB a b = true) (h2 : strLtB b c = true) :
    strLtB a c = true :=
  charListLt_trans a.data b.data c.data h1 h2

theorem strLtB_trichotomy (a b : String) :
    strLtB a b = true ∨ a = b ∨ strLtB b a = true := by
  rcases charListLt_trichotomy a.data b.data with h | h | h
  · exact Or.inl h
  · exact Or.inr (Or.inl (String.ext h))
  · exact Or.inr (Or.inr h)

theorem strLtB_asymm (a b : String) (h1 : strLtB a b = true) (h2 : strLtB b a = true) :
    False :=
  charListLt_asymm a.data b.data h1 h2

theorem dtLtB_trans (a b c : PyDateTime) (h1 : dtLtB a b = true) (h2 : dtLtB b c = true) :
    dtLtB a c = true := by
  simp only [dtLtB, Bool.or_eq_true, Bool.and_eq_true, decide_eq_true_eq] at h1 h2 ⊢
  omega

theorem dtLtB_trichotomy (a b : PyDateTime) :
    dtLtB a b = true ∨ a = b ∨ dtLtB b a = true := by
  obtain ⟨a1, a2, a3, a4, a5, a6⟩ := a
  obtain ⟨b1, b2, b3, b4, b5, b6⟩ := b
  simp only [dtLtB, PyDateTime.mk.injEq, Bool.or_eq_true, Bool.and_eq_true,
    decide_eq_true_eq]
  omega

theorem dtLtB_asymm (a b : PyDateTime) (h1 : dtLtB a b = true) (h2 : dtLtB b a = true) :
    False := by
  simp only [dtLtB, Bool.or_eq_true, Bool.and_eq_true, decide_eq_true_eq] at h1 h2
  omega

theorem keyLe_trans :
    ∀ x y z : PyDateTime × String × Nat × Nat,
      keyLe x y = true → keyLe y z = true → keyLe x z = true := by
  rintro ⟨xd, xs, xk, xo⟩ ⟨yd, ys, yk, yo⟩ ⟨zd, zs, zk, zo⟩ hxy hyz
  simp only [keyLe, Bool.or_eq_true, Bool.and_eq_true, decide_eq_true_eq] at hxy hyz ⊢
  rcases hxy with h1 | ⟨rfl, hrest1⟩
  · rcases hyz with h2 | ⟨rfl, hrest2⟩
    · exact Or.inl (dtLtB_trans _ _ _ h1 h2)
    · exact Or.inl h1
  · rcases hyz with h2 | ⟨rfl, hrest2⟩
    · exact Or.inl h2
    · refine Or.inr ⟨rfl, ?_⟩
      rcases hrest1 with hs1 | ⟨rfl, hr1⟩
      · rcases hrest2 with hs2 | ⟨rfl, hr2⟩
        · exact Or.inl (strLtB_trans _ _ _ hs1 hs2)
        · exact Or.inl hs1
      · rcases hrest2 with hs2 | ⟨rfl, hr2⟩
        · exact Or.inl hs2
        · exact Or.inr ⟨rfl, by omega⟩

theorem keyLe_total :
    ∀ x y : PyDateTime × String × Nat × Nat, (keyLe x y || keyLe y x) = true := by
  rintro ⟨xd, xs, xk, xo⟩ ⟨yd, ys, yk, yo⟩
  simp only [keyLe, Bool.or_eq_true, Bool.and_eq_true, decide_eq_true_eq]
  rcases dtLtB_trichotomy xd yd with h | rfl | h
  · exact Or.inl (Or.inl h)
  · rcases strLtB_trichotomy xs ys with h | rfl | h
    · exact Or.inl (Or.inr ⟨rfl, Or.inl h⟩)
    · rcases (show (xk < yk ∨ (xk = yk ∧ xo ≤ yo)) ∨
          (yk < xk ∨ (yk = xk ∧ yo ≤ xo)) by omega) with h | h
      · exact Or.inl (Or.inr ⟨rfl, Or.inr ⟨rfl, h⟩⟩)
      · exact Or.inr (Or.inr ⟨rfl, Or.inr ⟨rfl, h⟩⟩)
    · exact Or.inr (Or.inr ⟨rfl, Or.inl h⟩)
  · exact Or.inr (Or.inl h)

theorem keyLe_antisymm :
    ∀ x y : PyDateTime × String × Nat × Nat,
      keyLe x y = true → keyLe y x = true → x = y := by
  rintro ⟨xd, xs, xk, xo⟩ ⟨yd, ys, yk, yo⟩ hxy hyx
  simp only [keyLe, Bool.or_eq_true, Bool.and_eq_true, decide_eq_true_eq] at hxy hyx
  rcases hxy with h1 | ⟨rfl, hrest1⟩
  · rcases hyx with h2 | ⟨rfl, hrest2⟩
    · exact absurd h2 (fun h2 => dtLtB_asymm _ _ h1 h2)
    · exact absurd h1 (fun h1 => dtLtB_asymm _ _ h1 h1)
  · rcases hyx with h2 | ⟨_, hrest2⟩
    · exact absurd h2 (fun h2 => dtLtB_asymm _ _ h2 h2)
    · rcases hrest1 with hs1 | ⟨rfl, hr1⟩
      · rcases hrest2 with hs2 | ⟨rfl, hr2⟩
        · exact absurd hs2 (fun hs2 => strLtB_asymm _ _ hs1 hs2)
        · exact absurd hs1 (fun hs1 => strLtB_asymm _ _ hs1 hs1)
      · rcases hrest2 with hs2 | ⟨_, hr2⟩
        · exact absurd hs2 (fun hs2 => strLtB_asymm _ _ hs2 hs2)
        · have : xk = yk ∧ xo = yo := by omega
          rw [this.1, this.2]

theorem mem_insertSorted {α} (le : α → α → Bool) (x : α) :
    ∀ (l : List α) (a : α), a ∈ insertSorted le x l ↔ a = x ∨ a ∈ l := by
  intro l
  induction l with
  | nil => intro a; simp [insertSorted]
  | cons y ys ih =>
    intro a
    rw [insertSorted]
    split
    · simp [List.mem_cons]
    · rw [List.mem_cons, ih a, List.mem_cons]
      tauto

theorem pairwise_insertSorted {α} (le : α → α → Bool)
    (htrans : ∀ a b c, le a b = true → le b c = true → le a c = true)
    (htot : ∀ a b, (le a b || le b a) = true) (x : α) :
    ∀ l, l.Pairwise (fun a b => le a b = true) →
      (insertSorted le x l).Pairwise (fun a b => le a b = true) := by
  intro l
  induction l with
  | nil => intro _; simp [insertSorted]
  | cons y ys ih =>
    intro hp
    rw [List.pairwise_cons] at hp
    rw [insertSorted]
    split
    · next hxy =>
      rw [List.pairwise_cons]
      refine ⟨?_, List.pairwise_cons.mpr hp⟩
      intro z hz
      rcases List.mem_cons.mp hz with rfl | hz2
      · exact hxy
      · exact htrans x y z hxy (hp.1 z hz2)
    · next hxy =>
      have hyx : le y x = true := by
        have htot2 := htot x y
        rw [Bool.or_eq_true] at htot2
        rcases htot2 with h | h
        · exact absurd h hxy
        · exact h
      rw [List.pairwise_cons]
      refine ⟨?_, ih hp.2⟩
      intro z hz
      rcases (mem_insertSorted le x ys z).mp hz with rfl | hz2
      · exact hyx
      · exact hp.1 z hz2

theorem pairwise_sortByLe {α} (le : α → α → Bool)
    (htrans : ∀ a b c, le a b = true → le b c = true → le a c = true)
    (htot : ∀ a b, (le a b || le b a) = true) :
    ∀ l : List α, (sortByLe le l).Pairwise (fun a b => le a b = true) := by
  intro l
  induction l with
  | nil => simp [sortByLe]
  | cons x xs ih =>
    rw [sortByLe]
    exact pairwise_insertSorted le htrans htot x _ ih

theorem itemLe_trans (a b c : TimelineItem) (h1 : itemLe a b = true)
    (h2 : itemLe b c = true) : itemLe a c = true :=
  keyLe_trans _ _ _ h1 h2

theorem itemLe_total (a b : TimelineItem) : (itemLe a b || itemLe b a) = true :=
  keyLe_total _ _

/-- C1 (confirmed): the sort relation of `build_timeline` is a total order
on the sort keys (total, transitive, antisymmetric on keys — with primary
key the parsed instant, then the raw string, then message-before-attachment,
then the original index); the pre-merge timeline is sorted by it; and a
message and an attachment sharing the raw timestamp `2024-01-01T10:00:00`
order the message first. -/
theorem claim1_timeline_sorted :
    (∀ a b : TimelineItem, (itemLe a b || itemLe b a) = true) ∧
    (∀ a b c : TimelineItem, itemLe a b = true → itemLe b c = true →
      itemLe a c = true) ∧
    (∀ a b : TimelineItem, itemLe a b = true → itemLe b a = true →
      itemSortKey a = itemSortKey b) ∧
    (∀ (messages : List MessageRec) (attachments : List ResolvedAttachment)
        (items : List TimelineItem),
      sortedTimelineItems messages attachments = .ok items →
      items.Pairwise (fun a b => itemLe a b = true)) ∧
    build_timeline
        [{ timestamp := some "2024-01-01T10:00:00", created_by := some "Alice",
           text := some "hello" }]
        [⟨{ timestamp := some "2024-01-01T10:00:00" }, "log.txt"⟩]
      = .ok [TimelineEntry.message "2024-01-01T10:00:00" ⟨2024, 1, 1, 10, 0, 0⟩
               "Alice" false "hello" 0,
             TimelineEntry.attachments ["log.txt"]] := by
  refine ⟨itemLe_total, itemLe_trans, ?_, ?_, rfl⟩
  · intro a b h1 h2
    exact keyLe_antisymm _ _ h1 h2
  · intro messages attachments items h
    rw [sortedTimelineItems] at h
    cases hm : buildMessageItems messages 0 with
    | error e =>
      rw [hm, ebind_err] at h
      exact absurd h (by simp)
    | ok msgItems =>
      rw [hm, ebind_ok] at h
      cases ha : buildAttachmentItems attachments messages.length with
      | error e =>
        rw [ha, ebind_err] at h
        exact absurd h (by simp)
      | ok attItems =>
        rw [ha, ebind_ok, epure, Except.ok.injEq] at h
        subst h
        exact pairwise_sortByLe itemLe itemLe_trans itemLe_total _

/-- Witness for `claim1_timeline_sorted` at concrete items. -/
theorem claim1_timeline_sorted_witness :
    itemLe (TimelineItem.message "a" ⟨2024, 1, 1, 0, 0, 0⟩ "A" false "t" 0)
        (TimelineItem.attachment "a" ⟨2024, 1, 1, 0, 0, 0⟩ "f" 1) = true ∧
    itemSortKey (TimelineItem.message "a" ⟨2024, 1, 1, 0, 0, 0⟩ "A" false "t" 0)
      = itemSortKey (TimelineItem.message "a" ⟨2024, 1, 1, 0, 0, 0⟩ "B" true "u" 0) ∧
    ([TimelineItem.message "2024-01-01T10:00:00" ⟨2024, 1, 1, 10, 0, 0⟩ "A" false "t" 0,
      TimelineItem.attachment "2024-01-01T10:00:00" ⟨2024, 1, 1, 10, 0, 0⟩ "f" 1]).Pairwise
      (fun a b => itemLe a b = true) := by
  refine ⟨?_, ?_, ?_⟩
  · have h := claim1_timeline_sorted.2.1
      (TimelineItem.message "a" ⟨2024, 1, 1, 0, 0, 0⟩ "A" false "t" 0)
      (TimelineItem.message "a" ⟨2024, 1, 1, 0, 0, 0⟩ "A" false "t" 0)
      (TimelineItem.attachment "a" ⟨2024, 1, 1, 0, 0, 0⟩ "f" 1)
      (by decide) (by decide)
    exact h
  · exact claim1_timeline_sorted.2.2.1 _ _ (by decide) (by decide)
  · exact claim1_timeline_sorted.2.2.2.1
      [{ timestamp := some "2024-01-01T10:00:00", created_by := some "A",
         text := some "t" }]
      [⟨{ timestamp := some "2024-01-01T10:00:00" }, "f"⟩] _ rfl

/-! ## Claim C3: `parse_timestamp` -/

theorem obind_some {α β} (a : α) (f : α → Option β) : (some a >>= f) = f a := rfl

theorem digitChar_isDigit (k : Nat) (h : k < 10) : (digitChar k).isDigit = true := by
  interval_cases k <;> rfl

theorem isPyWs_digitChar (k : Nat) : isPyWs (digitChar k) = false := by
  unfold digitChar
  split <;> rfl

theorem parse4Digits_pad (y : Nat) (hy : y ≤ 9999) (r : List Char) :
    parse4Digits (padNat4 y ++ r) = some (y, r) := by
  have h1 : y / 1000 < 10 := by omega
  have h2 : y / 100 % 10 < 10 := by omega
  have h3 : y / 10 % 10 < 10 := by omega
  have h4 : y % 10 < 10 := by omega
  show parse4Digits (digitChar (y / 1000) :: digitChar (y / 100 % 10) ::
    digitChar (y / 10 % 10) :: digitChar (y % 10) :: r) = some (y, r)
  rw [parse4Digits]
  rw [if_pos (by rw [digitChar_isDigit _ h1, digitChar_isDigit _ h2,
    digitChar_isDigit _ h3, digitChar_isDigit _ h4]; rfl)]
  rw [Option.some.injEq, Prod.mk.injEq]
  refine ⟨?_, rfl⟩
  rw [digitVal_digitChar _ h1, digitVal_digitChar _ h2, digitVal_digitChar _ h3,
    digitVal_digitChar _ h4]
  omega

theorem parseMonthField_pad (mo : Nat) (h1 : 1 ≤ mo) (h2 : mo ≤ 12) (r : List Char) :
    parseMonthField (padNat2 mo ++ r) = some (mo, r) := by
  interval_cases mo <;> rfl

theorem parseDayField_pad (d : Nat) (h1 : 1 ≤ d) (h2 : d ≤ 31) (r : List Char) :
    parseDayField (padNat2 d ++ r) = some (d, r) := by
  interval_cases d <;> rfl

theorem parseHourField_pad (h : Nat) (hh : h ≤ 23) (r : List Char) :
    parseHourField (padNat2 h ++ r) = some (h, r) := by
  interval_cases h <;> rfl

theorem parseMinuteField_pad (mi : Nat) (hmi : mi ≤ 59) (r : List Char) :
    parseMinuteField (padNat2 mi ++ r) = some (mi, r) := by
  interval_cases mi <;> rfl

theorem parseSecondField_pad (s : Nat) (hs : s ≤ 59) (r : List Char) :
    parseSecondField (padNat2 s ++ r) = some (s, r) := by
  interval_cases s <;> rfl

theorem expectChar_cons (c : Char) (r : List Char) : expectChar c (c :: r) = some r := by
  rw [expectChar, if_pos rfl]

theorem dropWhile_ws_pad2 (n : Nat) (r : List Char) :
    List.dropWhile isPyWs (padNat2 n ++ r) = padNat2 n ++ r := by
  show List.dropWhile isPyWs (digitChar (n / 10) :: (digitChar (n % 10) :: r)) = _
  rw [List.dropWhile_cons,
    if_neg (by rw [isPyWs_digitChar]; exact Bool.false_ne_true)]
  rfl

theorem expectWsRun_space_pad2 (n : Nat) (r : List Char) :
    expectWsRun (' ' :: (padNat2 n ++ r)) = some (padNat2 n ++ r) := by
  rw [expectWsRun, if_pos (show isPyWs ' ' = true from rfl), dropWhile_ws_pad2]

theorem expectWsRun_not_ws (c : Char) (hc : isPyWs c = false) (r : List Char) :
    expectWsRun (c :: r) = none := by
  rw [expectWsRun, if_neg (by rw [hc]; exact Bool.false_ne_true)]

theorem obind_none {α β} (f : α → Option β) : ((none : Option α) >>= f) = none := rfl

theorem daysInMonth_le_31 (y mo : Nat) : daysInMonth y mo ≤ 31 := by
  rw [daysInMonth]
  split
  · split <;> omega
  · split <;> omega

theorem strptimePrimary_roundtrip (y mo d h mi s : Nat)
    (hy1 : 1 ≤ y) (hy2 : y ≤ 9999) (hmo1 : 1 ≤ mo) (hmo2 : mo ≤ 12)
    (hd1 : 1 ≤ d) (hd2 : d ≤ daysInMonth y mo)
    (hh : h ≤ 23) (hmi : mi ≤ 59) (hs : s ≤ 59) :
    strptimePrimary true (primaryTimestampString ' ' y mo d h mi s)
      = some ⟨y, mo, d, h, mi, s⟩ ∧
    strptimePrimary false (primaryTimestampString 'T' y mo d h mi s)
      = some ⟨y, mo, d, h, mi, s⟩ ∧
    strptimePrimary true (primaryTimestampString 'T' y mo d h mi s) = none := by
  have hd31 : d ≤ 31 := le_trans hd2 (daysInMonth_le_31 y mo)
  have hdata : ∀ sep : Char, (primaryTimestampString sep y mo d h mi s).data
      = padNat4 y ++ '-' :: (padNat2 mo ++ '-' :: (padNat2 d ++
        sep :: (padNat2 h ++ ':' :: (padNat2 mi ++ ':' :: padNat2 s)))) := by
    intro sep
    simp [primaryTimestampString]
  have hchecked : mkDateTimeChecked y mo d h mi s = some ⟨y, mo, d, h, mi, s⟩ := by
    rw [mkDateTimeChecked, if_pos]
    simp only [Bool.and_eq_true, decide_eq_true_eq]
    refine ⟨⟨⟨⟨⟨⟨⟨⟨hy1, hy2⟩, hmo1⟩, hmo2⟩, hd1⟩, hd2⟩, hh⟩, hmi⟩, hs⟩
  have hsec : parseSecondField (padNat2 s) = some (s, []) := by
    have h0 := parseSecondField_pad s hs []
    rwa [List.append_nil] at h0
  refine ⟨?_, ?_, ?_⟩
  · simp only [strptimePrimary, hdata ' ', parse4Digits_pad y hy2, obind_some,
      expectChar_cons, parseMonthField_pad mo hmo1 hmo2,
      parseDayField_pad d hd1 hd31, if_true, expectWsRun_space_pad2,
      parseHourField_pad h hh, parseMinuteField_pad mi hmi,
      hsec, List.isEmpty_nil, hchecked]
  · simp only [strptimePrimary, hdata 'T', parse4Digits_pad y hy2, obind_some,
      expectChar_cons, parseMonthField_pad mo hmo1 hmo2,
      parseDayField_pad d hd1 hd31, Bool.false_eq_true, if_false,
      parseHourField_pad h hh, parseMinuteField_pad mi hmi,
      hsec, List.isEmpty_nil, if_true, hchecked]
  · simp only [strptimePrimary, hdata 'T', parse4Digits_pad y hy2, obind_some,
      expectChar_cons, parseMonthField_pad mo hmo1 hmo2,
      parseDayField_pad d hd1 hd31, if_true,
      expectWsRun_not_ws 'T' rfl, obind_none]

/-- C3 (corrected), counterexample to the claim as stated: the code's ISO
fallback removes *every* `Z` (`value.replace("Z", "")`), not just a trailing
one; on `"Z2024-01-02T10:00:00"` none of the claim's three patterns matches
(`specMatchesTimestamp` is false), yet `parse_timestamp` succeeds instead of
failing, refuting the claimed "fails if and only if none of these match". -/
theorem claim3_counterexample :
    parse_timestamp "Z2024-01-02T10:00:00" = .ok ⟨2024, 1, 2, 10, 0, 0⟩ ∧
    specMatchesTimestamp "Z2024-01-02T10:00:00" = false := by
  exact ⟨rfl, rfl⟩

/-- C3 (amended): `parse_timestamp` tries, in order, `YYYY-MM-DD HH:MM:SS`
and `YYYY-MM-DDTHH:MM:SS`; on failure it tries general ISO-8601 parsing
after removing *every* occurrence of the literal `Z`; it fails with a parse
error if and only if none of these match; and every valid timestamp in the
two primary formats parses to the same wall-clock instant regardless of
which of the two formats is used for the same date and time. -/
theorem claim3_parse_order :
    (∀ (v : String) (dt : PyDateTime), strptimePrimary true v = some dt →
      parse_timestamp v = .ok dt) ∧
    (∀ (v : String) (dt : PyDateTime), strptimePrimary true v = none →
      strptimePrimary false v = some dt → parse_timestamp v = .ok dt) ∧
    (∀ (v : String) (dt : PyDateTime), strptimePrimary true v = none →
      strptimePrimary false v = none → fromisoformat (removeAllZ v) = some dt →
      parse_timestamp v = .ok dt) ∧
    (∀ v : String, strptimePrimary true v = none → strptimePrimary false v = none →
      fromisoformat (removeAllZ v) = none →
      parse_timestamp v = .error ("Unparseable timestamp: " ++ v)) ∧
    (∀ y mo d h mi s : Nat, 1 ≤ y → y ≤ 9999 → 1 ≤ mo → mo ≤ 12 →
      1 ≤ d → d ≤ daysInMonth y mo → h ≤ 23 → mi ≤ 59 → s ≤ 59 →
      parse_timestamp (primaryTimestampString ' ' y mo d h mi s)
          = .ok ⟨y, mo, d, h, mi, s⟩ ∧
        parse_timestamp (primaryTimestampString 'T' y mo d h mi s)
          = .ok ⟨y, mo, d, h, mi, s⟩) := by
  have p1 : ∀ (v : String) (dt : PyDateTime), strptimePrimary true v = some dt →
      parse_timestamp v = .ok dt := by
    intro v dt h
    rw [parse_timestamp, h]
  have p2 : ∀ (v : String) (dt : PyDateTime), strptimePrimary true v = none →
      strptimePrimary false v = some dt → parse_timestamp v = .ok dt := by
    intro v dt h1 h2
    rw [parse_timestamp, h1, h2]
  refine ⟨p1, p2, ?_, ?_, ?_⟩
  · intro v dt h1 h2 h3
    rw [parse_timestamp, h1, h2, h3]
  · intro v h1 h2 h3
    rw [parse_timestamp, h1, h2, h3]
  · intro y mo d h mi s hy1 hy2 hmo1 hmo2 hd1 hd2 hh hmi hs
    obtain ⟨r1, r2, r3⟩ := strptimePrimary_roundtrip y mo d h mi s
      hy1 hy2 hmo1 hmo2 hd1 hd2 hh hmi hs
    exact ⟨p1 _ _ r1, p2 _ _ r3 r2⟩

/-- Witness for `claim3_parse_order` at concrete timestamps. -/
theorem claim3_parse_order_witness :
    parse_timestamp "2024-01-02 10:30:05" = .ok ⟨2024, 1, 2, 10, 30, 5⟩ ∧
    parse_timestamp "2024-01-02T10:30:05" = .ok ⟨2024, 1, 2, 10, 30, 5⟩ ∧
    parse_timestamp "2024-01-02" = .ok ⟨2024, 1, 2, 0, 0, 0⟩ ∧
    parse_timestamp "garbage" = .error "Unparseable timestamp: garbage" ∧
    parse_timestamp (primaryTimestampString ' ' 2024 1 2 10 30 5)
      = .ok ⟨2024, 1, 2, 10, 30, 5⟩ := by
  refine ⟨claim3_parse_order.1 _ _ rfl,
    claim3_parse_order.2.1 _ _ rfl rfl,
    claim3_parse_order.2.2.1 _ _ rfl rfl rfl,
    claim3_parse_order.2.2.2.1 _ rfl rfl rfl,
    (claim3_parse_order.2.2.2.2 2024 1 2 10 30 5 (by omega) (by omega) (by omega)
      (by omega) (by omega) (by decide) (by omega) (by omega) (by omega)).1⟩

/-! ## Claim C2: helper lemmas about the cleaner's stages -/

theorem trimBlankEdges_head_not (ls : List String) :
    ∀ l, (trimBlankEdges ls).head? = some l → isBlankLine l = false := by
  intro l hl
  rcases eq_or_ne ((ls.dropWhile isBlankLine).reverse.dropWhile isBlankLine) [] with h | h
  · simp [trimBlankEdges, h] at hl
  · rw [trimBlankEdges, List.head?_reverse, getLast?_dropWhile isBlankLine _ h,
      List.getLast?_reverse] at hl
    exact head?_dropWhile_not isBlankLine _ l hl

theorem trimBlankEdges_getLast_not (ls : List String) :
    ∀ l, (trimBlankEdges ls).getLast? = some l → isBlankLine l = false := by
  intro l hl
  rw [trimBlankEdges, List.getLast?_reverse] at hl
  exact head?_dropWhile_not isBlankLine _ l hl

theorem trimBlankEdges_idem (ls : List String) :
    trimBlankEdges (trimBlankEdges ls) = trimBlankEdges ls := by
  rw [trimBlankEdges, dropWhile_head_eq_self isBlankLine _ (trimBlankEdges_head_not ls)]
  rw [trimBlankEdges, List.reverse_reverse, dropWhile_idem]

theorem trimBlankEdges_sublist (ls : List String) : (trimBlankEdges ls).Sublist ls := by
  have h2 : ((ls.dropWhile isBlankLine).reverse.dropWhile isBlankLine).Sublist
      (ls.dropWhile isBlankLine).reverse := List.dropWhile_sublist _
  have h3 := h2.reverse
  rw [List.reverse_reverse] at h3
  exact h3.trans (List.dropWhile_sublist _)

theorem stripLeadingMetadata_sublist : ∀ ls, (stripLeadingMetadata ls).Sublist ls := by
  intro ls
  induction ls with
  | nil => simp [stripLeadingMetadata]
  | cons l rest ih =>
    rw [stripLeadingMetadata]
    split
    · exact ih.cons₂ l
    · split
      · exact ih.cons l
      · exact List.Sublist.refl _

theorem stripGreeting_sublist : ∀ ls, (stripGreeting ls).Sublist ls := by
  intro ls
  induction ls with
  | nil => simp [stripGreeting]
  | cons l rest ih =>
    rw [stripGreeting]
    split
    · exact ih.cons₂ l
    · split
      · exact List.sublist_cons_self l rest
      · exact List.Sublist.refl _

theorem dropTrailingDateAux_sublist : ∀ ls, (dropTrailingDateAux ls).Sublist ls := by
  intro ls
  induction ls with
  | nil => simp [dropTrailingDateAux]
  | cons l rest ih =>
    rw [dropTrailingDateAux]
    split
    · exact ih.cons₂ l
    · split
      · exact List.sublist_cons_self l rest
      · exact List.Sublist.refl _

theorem dropTrailingDate_sublist (ls : List String) :
    (dropTrailingDate ls).Sublist ls := by
  have h := (dropTrailingDateAux_sublist ls.reverse).reverse
  rwa [List.reverse_reverse] at h

theorem dropThroughSignoff_sublist :
    ∀ (m rest : List String), dropThroughSignoff m = some rest → rest.Sublist m := by
  intro m
  induction m with
  | nil => intro rest h; simp [dropThroughSignoff] at h
  | cons l ms ih =>
    intro rest h
    rw [dropThroughSignoff] at h
    split at h
    · exact (ih rest h).cons l
    · split at h
      · rw [Option.some.injEq] at h
        subst h
        exact List.sublist_cons_self l ms
      · exact absurd h (by simp)

theorem dropSignoffAux_sublist : ∀ ls, (dropSignoffAux ls).Sublist ls := by
  intro ls
  induction ls with
  | nil => simp [dropSignoffAux]
  | cons l rest ih =>
    rw [dropSignoffAux]
    split
    · exact ih.cons₂ l
    · split
      · exact List.sublist_cons_self l rest
      · split
        · split
          · next hdrop =>
            exact ((dropThroughSignoff_sublist rest _ hdrop).cons l)
          · exact List.Sublist.refl _
        · exact List.Sublist.refl _

theorem dropSignoff_sublist (ls : List String) : (dropSignoff ls).Sublist ls := by
  have h := (dropSignoffAux_sublist ls.reverse).reverse
  rwa [List.reverse_reverse] at h

theorem cleanLines_sublist (a : Option String) (lines : List String) :
    (cleanLines a lines).Sublist lines := by
  rw [cleanLines]
  refine (trimBlankEdges_sublist _).trans ((List.filter_sublist _).trans
    ((dropSignoff_sublist _).trans ((List.filter_sublist _).trans
      ((dropTrailingDate_sublist _).trans ((stripGreeting_sublist _).trans
        (stripLeadingMetadata_sublist _))))))

theorem splitlinesAux_nil (acc : List Char) :
    splitlinesAux [] acc = if acc.isEmpty then [] else [⟨acc.reverse⟩] := by
  rw [splitlinesAux]

theorem splitlinesAux_crlf (rest acc : List Char) :
    splitlinesAux ('\r' :: '\n' :: rest) acc
      = ⟨acc.reverse⟩ :: splitlinesAux rest [] := by
  rw [splitlinesAux]

theorem splitlinesAux_lf (rest acc : List Char) :
    splitlinesAux ('\n' :: rest) acc = ⟨acc.reverse⟩ :: splitlinesAux rest [] := by
  rw [splitlinesAux]
  · rw [if_pos (by decide)]
  · intro rest1 hcr _
    exact absurd hcr (by decide)

theorem splitlinesAux_cr (rest acc : List Char) (h : rest.head? ≠ some '\n') :
    splitlinesAux ('\r' :: rest) acc = ⟨acc.reverse⟩ :: splitlinesAux rest [] := by
  rw [splitlinesAux]
  · rw [if_pos (by decide)]
  · intro rest1 _ hr
    exact h (by rw [hr]; rfl)

theorem splitlinesAux_plain (c : Char) (hc : c ≠ '\n' ∧ c ≠ '\r') (rest acc : List Char) :
    splitlinesAux (c :: rest) acc = splitlinesAux rest (c :: acc) := by
  rw [splitlinesAux]
  · rw [if_neg (by simp [hc.1, hc.2])]
  · intro rest1 hcr _
    exact hc.2 hcr

theorem splitlinesAux_no_newline_fuel (n : Nat) :
    ∀ (cs acc : List Char), cs.length ≤ n → (∀ c ∈ acc, c ≠ '\n' ∧ c ≠ '\r') →
      ∀ l ∈ splitlinesAux cs acc, ∀ c ∈ l.data, c ≠ '\n' ∧ c ≠ '\r' := by
  induction n with
  | zero =>
    intro cs acc hlen hacc l hl c hc
    have hnil : cs = [] := List.length_eq_zero.mp (by omega)
    subst hnil
    rw [splitlinesAux_nil] at hl
    split at hl
    · simp at hl
    · rw [List.mem_singleton] at hl
      subst hl
      exact hacc c (by simpa using hc)
  | succ n ih =>
    intro cs acc hlen hacc l hl c hc
    cases cs with
    | nil =>
      rw [splitlinesAux_nil] at hl
      split at hl
      · simp at hl
      · rw [List.mem_singleton] at hl
        subst hl
        exact hacc c (by simpa using hc)
    | cons c0 rest =>
      rw [List.length_cons] at hlen
      by_cases hn : c0 = '\n'
      · subst hn
        rw [splitlinesAux_lf] at hl
        rcases List.mem_cons.mp hl with rfl | hl2
        · exact hacc c (by simpa using hc)
        · exact ih rest [] (by omega) (by simp) l hl2 c hc
      · by_cases hr : c0 = '\r'
        · subst hr
          cases rest with
          | nil =>
            rw [splitlinesAux_cr _ _ (by simp)] at hl
            rcases List.mem_cons.mp hl with rfl | hl2
            · exact hacc c (by simpa using hc)
            · exact ih [] [] (by omega) (by simp) l hl2 c hc
          | cons c1 rest2 =>
            by_cases hc1 : c1 = '\n'
            · subst hc1
              rw [splitlinesAux_crlf] at hl
              rcases List.mem_cons.mp hl with rfl | hl2
              · exact hacc c (by simpa using hc)
              · exact ih rest2 [] (by simp at hlen; omega) (by simp) l hl2 c hc
            · rw [splitlinesAux_cr _ _ (by simp [hc1])] at hl
              rcases List.mem_cons.mp hl with rfl | hl2
              · exact hacc c (by simpa using hc)
              · exact ih (c1 :: rest2) [] (by omega) (by simp) l hl2 c hc
        · rw [splitlinesAux_plain c0 ⟨hn, hr⟩] at hl
          refine ih rest (c0 :: acc) (by omega) ?_ l hl c hc
          intro d hd
          rcases List.mem_cons.mp hd with rfl | hd2
          · exact ⟨hn, hr⟩
          · exact hacc d hd2

theorem splitlines_no_newline (s : String) :
    ∀ l ∈ splitlines s, ∀ c ∈ l.data, c ≠ '\n' ∧ c ≠ '\r' :=
  splitlinesAux_no_newline_fuel s.data.length s.data [] (le_refl _) (by simp)

theorem splitlinesAux_all_plain :
    ∀ (cs : List Char), (∀ c ∈ cs, c ≠ '\n' ∧ c ≠ '\r') → ∀ (acc : List Char),
      splitlinesAux cs acc =
        if (acc.reverse ++ cs).isEmpty then [] else [⟨acc.reverse ++ cs⟩] := by
  intro cs
  induction cs with
  | nil =>
    intro _ acc
    rw [splitlinesAux_nil]
    simp
  | cons c0 rest ih =>
    intro h acc
    have hc0 := h c0 (List.mem_cons_self c0 rest)
    have hrest : ∀ c ∈ rest, c ≠ '\n' ∧ c ≠ '\r' :=
      fun c hc => h c (List.mem_cons_of_mem c0 hc)
    rw [splitlinesAux_plain c0 hc0, ih hrest (c0 :: acc)]
    have hlist : (c0 :: acc).reverse ++ rest = acc.reverse ++ c0 :: rest := by
      rw [List.reverse_cons, List.append_assoc]
      rfl
    rw [hlist]

theorem splitlinesAux_append_newline :
    ∀ (cs : List Char), (∀ c ∈ cs, c ≠ '\n' ∧ c ≠ '\r') →
      ∀ (rest acc : List Char),
        splitlinesAux (cs ++ '\n' :: rest) acc
          = ⟨acc.reverse ++ cs⟩ :: splitlinesAux rest [] := by
  intro cs
  induction cs with
  | nil =>
    intro _ rest acc
    rw [List.nil_append, splitlinesAux_lf, List.append_nil]
  | cons c0 cs2 ih =>
    intro h rest acc
    have hc0 := h c0 (List.mem_cons_self c0 cs2)
    have hcs2 : ∀ c ∈ cs2, c ≠ '\n' ∧ c ≠ '\r' :=
      fun c hc => h c (List.mem_cons_of_mem c0 hc)
    rw [List.cons_append, splitlinesAux_plain c0 hc0, ih hcs2 rest (c0 :: acc)]
    rw [List.reverse_cons, List.append_assoc]
    rfl

theorem find?_nonblank_eq_head_dropWhile :
    ∀ r : List String, r.find? (fun l => !isBlankLine l)
      = (r.dropWhile isBlankLine).head? := by
  intro r
  induction r with
  | nil => rfl
  | cons l rs ih =>
    rw [List.find?_cons, List.dropWhile_cons]
    by_cases hb : isBlankLine l = true
    · simp [hb, ih]
    · simp [hb]

theorem stripLeadingMetadata_eq_self (ls : List String)
    (h : ∀ l, firstNonBlank ls = some l → isMetaLine l = false) :
    stripLeadingMetadata ls = ls := by
  induction ls with
  | nil => rfl
  | cons l rest ih =>
    by_cases hb : isBlankLine l = true
    · rw [stripLeadingMetadata, if_pos hb]
      refine congrArg (l :: ·) (ih ?_)
      intro x hx
      exact h x (by simp [firstNonBlank, List.find?_cons, hb]; exact hx)
    · have hm : isMetaLine l = false := h l (by simp [firstNonBlank, List.find?_cons, hb])
      rw [stripLeadingMetadata, if_neg hb, if_neg (by simp [hm])]

theorem stripGreeting_eq_self (ls : List String)
    (h : ∀ l, firstNonBlank ls = some l → isGreetingLine l = false) :
    stripGreeting ls = ls := by
  induction ls with
  | nil => rfl
  | cons l rest ih =>
    by_cases hb : isBlankLine l = true
    · rw [stripGreeting, if_pos hb]
      refine congrArg (l :: ·) (ih ?_)
      intro x hx
      exact h x (by simp [firstNonBlank, List.find?_cons, hb]; exact hx)
    · have hm : isGreetingLine l = false :=
        h l (by simp [firstNonBlank, List.find?_cons, hb])
      rw [stripGreeting, if_neg hb, if_neg (by simp [hm])]

theorem dropTrailingDate_eq_self (ls : List String)
    (h : ∀ l, lastNonBlank ls = some l → trailingDropCheck l = false) :
    dropTrailingDate ls = ls := by
  rw [dropTrailingDate, dropTrailingDateAux_eq_self ls.reverse h, List.reverse_reverse]

theorem dropThroughSignoff_eq_none (m : List String)
    (h : ∀ p, m.find? (fun l => !isBlankLine l) = some p → isSignoffLine p = false) :
    dropThroughSignoff m = none := by
  induction m with
  | nil => rfl
  | cons l ms ih =>
    by_cases hb : isBlankLine l = true
    · rw [dropThroughSignoff, if_pos hb]
      exact ih (fun p hp => h p (by simp [List.find?_cons, hb]; exact hp))
    · have hs : isSignoffLine l = false := h l (by simp [List.find?_cons, hb])
      rw [dropThroughSignoff, if_neg hb, if_neg (by simp [hs])]

theorem dropSignoffAux_eq_self (r : List String)
    (h4 : ∀ l, r.find? (fun l => !isBlankLine l) = some l → isSignoffLine l = false)
    (h5 : ∀ l rest, r.dropWhile isBlankLine = l :: rest → isNameLine l = true →
      ∀ p, rest.find? (fun l => !isBlankLine l) = some p → isSignoffLine p = false) :
    dropSignoffAux r = r := by
  induction r with
  | nil => rfl
  | cons l rs ih =>
    by_cases hb : isBlankLine l = true
    · rw [dropSignoffAux, if_pos hb]
      refine congrArg (l :: ·) (ih ?_ ?_)
      · exact fun x hx => h4 x (by simp [List.find?_cons, hb]; exact hx)
      · intro x rest hx hname p hp
        refine h5 x rest ?_ hname p hp
        rw [List.dropWhile_cons, if_pos hb, hx]
    · have hsig : isSignoffLine l = false := h4 l (by simp [List.find?_cons, hb])
      rw [dropSignoffAux, if_neg hb, if_neg (by simp [hsig])]
      by_cases hname : isNameLine l = true
      · rw [if_pos hname]
        have hnone : dropThroughSignoff rs = none := by
          apply dropThroughSignoff_eq_none
          intro p hp
          refine h5 l rs ?_ hname p hp
          rw [List.dropWhile_cons, if_neg hb]
        rw [hnone]
      · rw [if_neg hname]

theorem dropSignoff_eq_self (ls : List String)
    (h4 : ∀ l, lastNonBlank ls = some l → isSignoffLine l = false)
    (h5 : ∀ l, lastNonBlank ls = some l → isNameLine l = true →
      ∀ p, prevNonBlankBeforeLast ls = some p → isSignoffLine p = false) :
    dropSignoff ls = ls := by
  have haux : dropSignoffAux ls.reverse = ls.reverse := by
    refine dropSignoffAux_eq_self ls.reverse h4 ?_
    intro l rest hx hname p hp
    have hlastl : lastNonBlank ls = some l := by
      rw [lastNonBlank, find?_nonblank_eq_head_dropWhile, hx]
      rfl
    refine h5 l hlastl hname p ?_
    rw [prevNonBlankBeforeLast, hx]
    exact hp
  rw [dropSignoff, haux, List.reverse_reverse]

theorem noResidualBoilerplate_spec (ls : List String)
    (h : noResidualBoilerplate ls = true) :
    (∀ l, firstNonBlank ls = some l →
      isMetaLine l = false ∧ isGreetingLine l = false) ∧
    (∀ l, lastNonBlank ls = some l →
      trailingDropCheck l = false ∧ isSignoffLine l = false ∧
      (isNameLine l = true → ∀ p, prevNonBlankBeforeLast ls = some p →
        isSignoffLine p = false)) := by
  rw [noResidualBoilerplate, Bool.and_eq_true] at h
  obtain ⟨h1, h2⟩ := h
  constructor
  · intro l hl
    rw [hl] at h1
    simp only [Bool.and_eq_true, Bool.not_eq_true'] at h1
    exact h1
  · intro l hl
    rw [hl] at h2
    simp only [Bool.and_eq_true, Bool.not_eq_true'] at h2
    refine ⟨h2.1.1, h2.1.2, ?_⟩
    intro hname p hp
    have h22 := h2.2
    rw [hp, hname] at h22
    simpa using h22

theorem splitlines_joinNL (L : List String)
    (hnl : ∀ l ∈ L, ∀ c ∈ l.data, c ≠ '\n' ∧ c ≠ '\r')
    (hlast : ∀ l, L.getLast? = some l → l ≠ "") :
    splitlines (joinNL L) = L := by
  induction L with
  | nil => rfl
  | cons l ls ih =>
    cases ls with
    | nil =>
      rw [show joinNL [l] = l from rfl]
      rw [splitlines, splitlinesAux_all_plain l.data (hnl l (by simp)) []]
      have hne : l ≠ "" := hlast l rfl
      have hdata : l.data.isEmpty = false := by
        cases hdl : l.data.isEmpty
        · rfl
        · exact absurd (String.ext (by simpa using List.isEmpty_iff.mp hdl)) hne
      rw [List.reverse_nil, List.nil_append, hdata]
      rfl
    | cons l2 ls2 =>
      rw [show joinNL (l :: l2 :: ls2) = l ++ "\n" ++ joinNL (l2 :: ls2) from rfl]
      rw [splitlines]
      have hdata : (l ++ "\n" ++ joinNL (l2 :: ls2)).data
          = l.data ++ '\n' :: (joinNL (l2 :: ls2)).data := by
        rw [String.data_append, String.data_append, List.append_assoc]
        rfl
      rw [hdata, splitlinesAux_append_newline l.data (hnl l (by simp)) _ []]
      rw [List.reverse_nil, List.nil_append]
      refine congrArg₂ (· :: ·) rfl ?_
      refine ih (fun x hx => hnl x (List.mem_cons_of_mem l hx)) ?_
      intro x hx
      refine hlast x ?_
      rw [List.getLast?_cons_cons]
      exact hx

/-- C2 (corrected), counterexample to the claim as stated: the cleaner is
not idempotent — each application removes at most one leading greeting line,
so stacked greetings are peeled one per pass (`"Hi\nHello\nX"` cleans to
`"Hello\nX"`, which cleans again to `"X"`). -/
theorem claim2_counterexample :
    clean_message_text "Hi\nHello\nX" none = "Hello\nX" ∧
    clean_message_text (clean_message_text "Hi\nHello\nX" none) none = "X" ∧
    clean_message_text (clean_message_text "Hi\nHello\nX" none) none
      ≠ clean_message_text "Hi\nHello\nX" none := by
  refine ⟨rfl, rfl, ?_⟩
  intro hcon
  rw [show clean_message_text (clean_message_text "Hi\nHello\nX" none) none
      = "X" from rfl,
    show clean_message_text "Hi\nHello\nX" none = "Hello\nX" from rfl] at hcon
  exact absurd hcon (by decide)

/-- C2 (amended): the Text Cleaner is idempotent on every input whose
cleaned output retains no removable boilerplate — that is, whose first
non-blank line is neither leading metadata nor a greeting and whose last
non-blank line is not a trailing date / `on ... at ...` header, not a
signoff, and not a bare name directly after a signoff
(`noResidualBoilerplate`).  (In general a second application can strip
further: see the stacked-greeting counterexample.)  The spec's concrete
example cleans as stated. -/
theorem claim2_clean_idempotent_on_settled :
    (∀ (t : String) (a : Option String),
      noResidualBoilerplate (cleanLines a (splitlines t)) = true →
      clean_message_text (clean_message_text t a) a = clean_message_text t a) ∧
    clean_message_text "Hi John,\nThe disk is full.\nBest,\nJohn Smith"
      (some "John Smith") = "The disk is full." := by
  refine ⟨?_, rfl⟩
  intro t a h
  obtain ⟨hfirst, hlast⟩ := noResidualBoilerplate_spec _ h
  simp only [clean_message_text]
  have hLtrim : cleanLines a (splitlines t)
      = trimBlankEdges (List.filter (fun l => !isAuthorNameLine a l)
        (dropSignoff (List.filter (fun l => !isFooterLine l)
          (dropTrailingDate (stripGreeting (stripLeadingMetadata (splitlines t))))))) := by
    rw [cleanLines]
  set L := cleanLines a (splitlines t) with hLdef
  have hsplit : splitlines (joinNL L) = L := by
    apply splitlines_joinNL
    · intro l hl c hc
      have hl2 : l ∈ splitlines t := (cleanLines_sublist a (splitlines t)).subset
        (by rw [← hLdef]; exact hl)
      exact splitlines_no_newline t l hl2 c hc
    · intro l hl
      have hnb : isBlankLine l = false := by
        rw [hLtrim] at hl
        exact trimBlankEdges_getLast_not _ l hl
      intro hcon
      subst hcon
      exact absurd hnb (by simp [show isBlankLine "" = true from rfl])
  have hs1 : stripLeadingMetadata L = L :=
    stripLeadingMetadata_eq_self L (fun l hl => (hfirst l hl).1)
  have hs2 : stripGreeting L = L :=
    stripGreeting_eq_self L (fun l hl => (hfirst l hl).2)
  have hs3 : dropTrailingDate L = L :=
    dropTrailingDate_eq_self L (fun l hl => (hlast l hl).1)
  have hf4 : List.filter (fun l => !isFooterLine l) L = L := by
    rw [List.filter_eq_self]
    intro l hl
    have hmem : l ∈ List.filter (fun l => !isFooterLine l)
        (dropTrailingDate (stripGreeting (stripLeadingMetadata (splitlines t)))) := by
      refine List.Sublist.subset ?_ (by rw [hLtrim] at hl; exact hl)
      exact (trimBlankEdges_sublist _).trans
        ((List.filter_sublist _).trans (dropSignoff_sublist _))
    exact (List.mem_filter.mp hmem).2
  have hs5 : dropSignoff L = L :=
    dropSignoff_eq_self L (fun l hl => (hlast l hl).2.1)
      (fun l hl hname p hp => (hlast l hl).2.2 hname p hp)
  have hf6 : List.filter (fun l => !isAuthorNameLine a l) L = L := by
    rw [List.filter_eq_self]
    intro l hl
    have hmem : l ∈ List.filter (fun l => !isAuthorNameLine a l)
        (dropSignoff (List.filter (fun l => !isFooterLine l)
          (dropTrailingDate (stripGreeting (stripLeadingMetadata (splitlines t)))))) := by
      refine List.Sublist.subset (trimBlankEdges_sublist _) ?_
      rw [hLtrim] at hl
      exact hl
    exact (List.mem_filter.mp hmem).2
  have hs7 : trimBlankEdges L = L := by
    rw [hLtrim]
    exact trimBlankEdges_idem _
  rw [hsplit, cleanLines, hs1, hs2, hs3, hf4, hs5, hf6, hs7]

/-- Witness for `claim2_clean_idempotent_on_settled` at the spec's own
example. -/
theorem claim2_clean_idempotent_on_settled_witness :
    clean_message_text (clean_message_text
        "Hi John,\nThe disk is full.\nBest,\nJohn Smith" (some "John Smith"))
      (some "John Smith")
      = clean_message_text "Hi John,\nThe disk is full.\nBest,\nJohn Smith"
          (some "John Smith") := by
  exact claim2_clean_idempotent_on_settled.1
    "Hi John,\nThe disk is full.\nBest,\nJohn Smith" (some "John Smith") rfl

end FT
